import Mathlib

/-! jc: trigger a Jenkins build, tail its log, report its result.

A shallow embedding of `main.go`.  Go strings are byte sequences.  The remote
server is a script of replies, one per HTTP exchange; the effects of a run are
the requests handed to `client.Do` and the bytes written to standard output.
The poll loop of `main` need not terminate, so it takes a bound on the number
of iterations and reports `running` when the bound is reached.
-/

namespace Jc

/-! ## Go strings -/

abbrev Byte := Fin 256

abbrev GoString := List Byte

/-- The bytes of an ASCII string literal. -/
def ascii (s : String) : GoString := s.toList.map (fun c => Fin.ofNat c.toNat)

/-- Go `strings.Cut(s, sep)` for a one-byte separator: the text before the
first `sep`, the text after it, and whether `sep` occurs; `(s, "", false)`
when it does not. -/
def Cut : GoString → Byte → GoString × GoString × Bool
  | [], _ => ([], [], false)
  | c :: rest, sep =>
    if c = sep then ([], rest, true)
    else
      let r := Cut rest sep
      (c :: r.1, r.2.1, r.2.2)

/-- Go `strings.SplitN(s, sep, n)` for a one-byte separator and `n ≥ 0`: at
most `n` pieces, the last one being the unsplit remainder. -/
def SplitN (s : GoString) (sep : Byte) : Nat → List GoString
  | 0 => []
  | 1 => [s]
  | n + 2 =>
    let r := Cut s sep
    if r.2.2 then r.1 :: SplitN r.2.1 sep (n + 1) else [s]

/-! ## Go maps with string keys -/

/-- A Go `map[string]ν`: an association list, one entry per key. -/
abbrev GoMap (ν : Type) := List (GoString × ν)

/-- Go `v, ok := m[k]`: the value of the key, if the map has the key. -/
def GoMap.get {ν : Type} : GoMap ν → GoString → Option ν
  | [], _ => none
  | (k', v) :: rest, k => if k' = k then some v else GoMap.get rest k

/-- Go `m[k] = v`. -/
def GoMap.set {ν : Type} : GoMap ν → GoString → ν → GoMap ν
  | [], k, v => [(k, v)]
  | (k', v') :: rest, k, v =>
    if k' = k then (k, v) :: rest else (k', v') :: GoMap.set rest k v

/-- The keys of a map. -/
def GoMap.keys {ν : Type} (m : GoMap ν) : List GoString := m.map Prod.fst

/-! ## Errors and panics -/

deriving instance DecidableEq for Except

/-- Go `error` values met by the program. -/
inductive Error where
  /-- an error of `net/http`, `net/url`, `io` or `encoding/json`, by its message -/
  | lib (msg : GoString)
  /-- `fmt.Errorf("unable to perform request: %v", err)` -/
  | request (cause : Error)
  /-- `strconv.NumError` with `ErrSyntax` -/
  | badNumber (fn : GoString) (input : GoString)
  /-- `strconv.NumError` with `ErrRange` -/
  | outOfRange (fn : GoString) (input : GoString)
  /-- `url.EscapeError` -/
  | escape (s : GoString)
  deriving DecidableEq, Repr

/-- The ways the process panics. -/
inductive Panic where
  /-- runtime error: index out of range `[index]` with length `length` -/
  | indexOutOfRange (index length : Nat)
  /-- `panic(err)` -/
  | err (e : Error)
  deriving DecidableEq, Repr

/-! ## strconv -/

/-- The two failures of number parsing: `ErrSyntax` and `ErrRange`. -/
inductive NumErr where
  | bad
  | range
  deriving DecidableEq, Repr

/-- The ASCII decimal digits `'0'..'9'`. -/
def isDigit (c : Byte) : Bool := 48 ≤ c.val && c.val ≤ 57

/-- The digit loop of Go `strconv.ParseUint(s, 10, 64)`: a byte that is no
decimal digit is a syntax error, a value above `2^64 - 1` a range error. -/
def parseUintLoop : Nat → GoString → Except NumErr Nat
  | n, [] => .ok n
  | n, c :: rest =>
    if isDigit c then
      if 1844674407370955162 ≤ n then .error .range
      else
        let n1 := n * 10 + (c.val - 48)
        if 18446744073709551616 ≤ n1 then .error .range else parseUintLoop n1 rest
    else .error .bad

/-- Go `strconv.ParseUint(s, 10, 64)`. -/
def ParseUint (s : GoString) : Except NumErr Nat :=
  if s = [] then .error .bad else parseUintLoop 0 s

/-- Go `strconv.ParseInt(s, 10, 0)` with a 64-bit `int`. -/
def ParseInt (s : GoString) : Except NumErr Int :=
  match s with
  | [] => .error .bad
  | c :: rest =>
    let neg : Bool := c = 45
    let s1 := if c = 43 ∨ c = 45 then rest else s
    match ParseUint s1 with
    | .error e => .error e
    | .ok un =>
      if !neg && decide (9223372036854775808 ≤ un) then .error .range
      else if neg && decide (9223372036854775808 < un) then .error .range
      else .ok (if neg then -(un : Int) else (un : Int))

/-- Go `strconv.Atoi(s)` with a 64-bit `int`; its fast path for short inputs
computes what `ParseInt(s, 10, 0)` computes. -/
def Atoi (s : GoString) : Except Error Int :=
  match ParseInt s with
  | .ok n => .ok n
  | .error .bad => .error (.badNumber (ascii "Atoi") s)
  | .error .range => .error (.outOfRange (ascii "Atoi") s)

/-- Go `strconv.ParseBool(str)`. -/
def ParseBool (str : GoString) : Except Error Bool :=
  if str = ascii "1" ∨ str = ascii "t" ∨ str = ascii "T" ∨ str = ascii "TRUE" ∨
      str = ascii "true" ∨ str = ascii "True" then .ok true
  else if str = ascii "0" ∨ str = ascii "f" ∨ str = ascii "F" ∨ str = ascii "FALSE" ∨
      str = ascii "false" ∨ str = ascii "False" then .ok false
  else .error (.badNumber (ascii "ParseBool") str)

/-- The decimal digits of a natural number, as `fmt` prints them. -/
def natDigits (n : Nat) : GoString := (Nat.toDigits 10 n).map (fun c => Fin.ofNat c.toNat)

/-- The verb `%d` of `fmt.Sprintf` on an `int`. -/
def Itoa : Int → GoString
  | .ofNat n => natDigits n
  | .negSucc n => 45 :: natDigits (n + 1)

/-! ## unicode/utf8 and strings.TrimSpace -/

/-- Go `utf8.RuneError`. -/
def RuneError : Nat := 0xFFFD

/-- A UTF-8 continuation byte. -/
def isCont (c : Byte) : Bool := 0x80 ≤ c.val && c.val ≤ 0xBF

/-- Go `utf8.DecodeRuneInString(s)`: the first rune of `s` and its width in
bytes; `(RuneError, 1)` on an invalid encoding, `(RuneError, 0)` on `""`. -/
def DecodeRune : GoString → Nat × Nat
  | [] => (RuneError, 0)
  | s0 :: rest =>
    if s0.val < 0x80 then (s0.val, 1)
    else if s0.val < 0xC2 ∨ 0xF4 < s0.val then (RuneError, 1)
    else
      let lo := if s0.val = 0xE0 then 0xA0 else if s0.val = 0xF0 then 0x90 else 0x80
      let hi := if s0.val = 0xED then 0x9F else if s0.val = 0xF4 then 0x8F else 0xBF
      match rest with
      | [] => (RuneError, 1)
      | s1 :: r1 =>
        if s0.val < 0xE0 then
          if s1.val < lo ∨ hi < s1.val then (RuneError, 1)
          else (s0.val % 32 * 64 + s1.val % 64, 2)
        else
          match r1 with
          | [] => (RuneError, 1)
          | s2 :: r2 =>
            if s0.val < 0xF0 then
              if s1.val < lo ∨ hi < s1.val then (RuneError, 1)
              else if !isCont s2 then (RuneError, 1)
              else (s0.val % 16 * 4096 + s1.val % 64 * 64 + s2.val % 64, 3)
            else
              match r2 with
              | [] => (RuneError, 1)
              | s3 :: _ =>
                if s1.val < lo ∨ hi < s1.val then (RuneError, 1)
                else if !isCont s2 then (RuneError, 1)
                else if !isCont s3 then (RuneError, 1)
                else (s0.val % 8 * 262144 + s1.val % 64 * 4096 + s2.val % 64 * 64
                        + s3.val % 64, 4)

/-- Go `unicode.IsSpace(r)`. -/
def IsSpace (r : Nat) : Bool :=
  if r ≤ 0xFF then
    r = 9 || r = 10 || r = 11 || r = 12 || r = 13 || r = 32 || r = 0x85 || r = 0xA0
  else
    r = 0x1680 || (0x2000 ≤ r && r ≤ 0x200A) || r = 0x2028 || r = 0x2029 || r = 0x202F
      || r = 0x205F || r = 0x3000

/-- The scan of Go `strings.TrimLeftFunc(s, unicode.IsSpace)`, rune by rune. -/
def trimLeftSpaceLoop : Nat → GoString → GoString
  | 0, s => s
  | fuel + 1, s =>
    if s = [] then []
    else
      let d := DecodeRune s
      if IsSpace d.1 then trimLeftSpaceLoop fuel (s.drop d.2) else s

/-- Go `strings.TrimLeftFunc(s, unicode.IsSpace)`. -/
def TrimLeftSpace (s : GoString) : GoString := trimLeftSpaceLoop s.length s

/-- The test `strings.TrimSpace(s) == ""`: `TrimSpace` leaves nothing exactly
when every rune of `s` is white space, that is when trimming from the left
alone consumes `s`. -/
def TrimSpaceIsEmpty (s : GoString) : Bool := TrimLeftSpace s = []

/-! ## net/url -/

/-- Go `url.shouldEscape(c, encodeQueryComponent)`: everything but the
unreserved bytes `A-Z a-z 0-9 - _ . ~`. -/
def shouldEscape (c : Byte) : Bool :=
  !((97 ≤ c.val && c.val ≤ 122) || (65 ≤ c.val && c.val ≤ 90) || (48 ≤ c.val && c.val ≤ 57)
    || c.val = 45 || c.val = 95 || c.val = 46 || c.val = 126)

/-- The table `"0123456789ABCDEF"[n]` of `net/url`. -/
def upperhex (n : Nat) : Byte := if n < 10 then Fin.ofNat (48 + n) else Fin.ofNat (55 + n)

/-- Go `url.QueryEscape(s)`: a space becomes `+`, any other byte that must be
escaped becomes `%XX`. -/
def QueryEscape : GoString → GoString
  | [] => []
  | c :: rest =>
    if c = 32 then 43 :: QueryEscape rest
    else if shouldEscape c then 37 :: upperhex (c.val / 16) :: upperhex (c.val % 16) :: QueryEscape rest
    else c :: QueryEscape rest

/-- Go `url.ishex(c)`. -/
def ishex (c : Byte) : Bool :=
  (48 ≤ c.val && c.val ≤ 57) || (97 ≤ c.val && c.val ≤ 102) || (65 ≤ c.val && c.val ≤ 70)

/-- Go `url.unhex(c)`. -/
def unhex (c : Byte) : Nat :=
  if 48 ≤ c.val ∧ c.val ≤ 57 then c.val - 48
  else if 97 ≤ c.val ∧ c.val ≤ 102 then c.val - 97 + 10
  else if 65 ≤ c.val ∧ c.val ≤ 70 then c.val - 65 + 10
  else 0

/-- The first loop of Go `url.unescape(s, encodeQueryComponent)`: every `%` is
followed by two hexadecimal digits, or the malformed escape is reported. -/
def unescapeCheck : GoString → Option Error
  | [] => none
  | c :: rest =>
    if c = 37 then
      match rest with
      | a :: b :: rest2 =>
        if ishex a && ishex b then unescapeCheck rest2 else .some (.escape [c, a, b])
      | _ => .some (.escape (c :: rest))
    else unescapeCheck rest

/-- The second loop of Go `url.unescape(s, encodeQueryComponent)`. -/
def unescapeDecode : GoString → GoString
  | [] => []
  | c :: rest =>
    if c = 37 then
      match rest with
      | a :: b :: rest2 => Fin.ofNat (unhex a * 16 + unhex b) :: unescapeDecode rest2
      | _ => []
    else if c = 43 then 32 :: unescapeDecode rest
    else c :: unescapeDecode rest

/-- Go `url.QueryUnescape(s)`. -/
def QueryUnescape (s : GoString) : Except Error GoString :=
  match unescapeCheck s with
  | some e => .error e
  | none => .ok (unescapeDecode s)

/-- Go `url.Values`, a `map[string][]string`. -/
abbrev Values := GoMap (List GoString)

/-- Go `Values.Add(key, value)`: `v[key] = append(v[key], value)`. -/
def Values.Add (v : Values) (key value : GoString) : Values :=
  v.set key ((v.get key).getD [] ++ [value])

/-- Go `Values.Encode()`: the keys in sorted order, every value of a key as
`key=value` with both parts escaped, the pairs joined by `&`. -/
def Values.Encode (v : Values) : GoString :=
  let keys := (GoMap.keys v).insertionSort (· ≤ ·)
  keys.foldl (fun buf k =>
    let vs := (v.get k).getD []
    let keyEscaped := QueryEscape k
    vs.foldl (fun buf val =>
      (if 0 < buf.length then buf ++ [38] else buf) ++ keyEscaped ++ [61] ++ QueryEscape val)
      buf) []

/-- The loop of Go `url.parseQuery(m, query)`, at most `fuel` pieces. -/
def parseQuery : Nat → Values → Option Error → GoString → Values × Option Error
  | 0, m, err, _ => (m, err)
  | fuel + 1, m, err, query =>
    if query = [] then (m, err)
    else
      let c := Cut query 38
      let key := c.1
      let query := c.2.1
      if (59 : Byte) ∈ key then
        parseQuery fuel m (some (.lib (ascii "invalid semicolon separator in query"))) query
      else if key = [] then parseQuery fuel m err query
      else
        let kv := Cut key 61
        match QueryUnescape kv.1 with
        | .error err1 => parseQuery fuel m (if err = none then some err1 else err) query
        | .ok key =>
          match QueryUnescape kv.2.1 with
          | .error err1 => parseQuery fuel m (if err = none then some err1 else err) query
          | .ok value => parseQuery fuel (Values.Add m key value) err query

/-- Go `url.ParseQuery(query)`; every piece shortens the query, so its length
bounds the number of pieces. -/
def ParseQuery (query : GoString) : Values × Option Error :=
  parseQuery query.length [] none query

/-! ## net/textproto, net/http headers and encoding/base64 -/

/-- Go `textproto.validHeaderFieldByte(c)`: the token bytes of RFC 7230. -/
def validHeaderFieldByte (c : Byte) : Bool :=
  (97 ≤ c.val && c.val ≤ 122) || (65 ≤ c.val && c.val ≤ 90) || (48 ≤ c.val && c.val ≤ 57)
    || c.val = 33 || c.val = 35 || c.val = 36 || c.val = 37 || c.val = 38 || c.val = 39
    || c.val = 42 || c.val = 43 || c.val = 45 || c.val = 46 || c.val = 94 || c.val = 95
    || c.val = 96 || c.val = 124 || c.val = 126

/-- The casing loop of Go `textproto.canonicalMIMEHeaderKey`: upper case at
the start and after `-`, lower case elsewhere. -/
def canonCase : Bool → GoString → GoString
  | _, [] => []
  | upper, c :: rest =>
    let c1 : Byte :=
      if upper && (97 ≤ c.val && c.val ≤ 122) then Fin.ofNat (c.val - 32)
      else if !upper && (65 ≤ c.val && c.val ≤ 90) then Fin.ofNat (c.val + 32)
      else c
    c1 :: canonCase (c1 = 45) rest

/-- Go `textproto.CanonicalMIMEHeaderKey(s)`: a key made of token bytes only
is put in canonical case, any other key is returned unchanged. -/
def CanonicalMIMEHeaderKey (s : GoString) : GoString :=
  if s.all validHeaderFieldByte then canonCase true s else s

/-- Go `http.Header`, a `map[string][]string`. -/
abbrev Header := GoMap (List GoString)

/-- Go `Header.Set(key, value)`. -/
def Header.Set (h : Header) (key value : GoString) : Header :=
  h.set (CanonicalMIMEHeaderKey key) [value]

/-- Go `Header.Get(key)`: the first value of the key, `""` when it has none. -/
def Header.Get (h : Header) (key : GoString) : GoString :=
  match h.get (CanonicalMIMEHeaderKey key) with
  | some (v :: _) => v
  | _ => []

/-- The alphabet of `base64.StdEncoding`. -/
def encodeStd : GoString :=
  ascii "ABCDEFGHIJKLMNOPQRSTUVWXYZabcdefghijklmnopqrstuvwxyz0123456789+/"

/-- Go `base64.StdEncoding.EncodeToString(src)`. -/
def base64 : GoString → GoString
  | [] => []
  | [a] => [encodeStd.getD (a.val / 4) 0, encodeStd.getD (a.val % 4 * 16) 0, 61, 61]
  | [a, b] =>
    [encodeStd.getD (a.val / 4) 0, encodeStd.getD (a.val % 4 * 16 + b.val / 16) 0,
      encodeStd.getD (b.val % 16 * 4) 0, 61]
  | a :: b :: c :: rest =>
    encodeStd.getD (a.val / 4) 0 :: encodeStd.getD (a.val % 4 * 16 + b.val / 16) 0 ::
      encodeStd.getD (b.val % 16 * 4 + c.val / 64) 0 :: encodeStd.getD (c.val % 64) 0 ::
      base64 rest

/-! ## Command line (main, lines 26-36) -/

/-- The loop of `main` over the positional arguments, from the `i`-th one on:
`parts := strings.SplitN(v, "=", 2); argsMap[parts[0]] = parts[1]`.  A failure
carries the position of the argument at which the process panicked. -/
def parseArgsFrom (argsMap : GoMap GoString) (i : Nat) :
    List GoString → Except (Nat × Panic) (GoMap GoString)
  | [] => .ok argsMap
  | v :: rest =>
    let parts := SplitN v 61 2
    match parts[0]?, parts[1]? with
    | some k, some val => parseArgsFrom (argsMap.set k val) (i + 1) rest
    | some _, none => .error (i, .indexOutOfRange 1 parts.length)
    | none, _ => .error (i, .indexOutOfRange 0 parts.length)

/-- The map `argsMap` built by `main` from `flag.Args()`. -/
def parseArgs (args : List GoString) : Except (Nat × Panic) (GoMap GoString) :=
  parseArgsFrom [] 0 args

/-! ## Data model (main.go, lines 252-274) -/

set_option linter.dupNamespace false

structure Crumb where
  Crumb : GoString
  CrumbRequestField : GoString
  deriving DecidableEq, Repr

structure QueueExecutable where
  Number : Int
  deriving DecidableEq, Repr

structure QueueInfo where
  QueueExecutable : QueueExecutable
  deriving DecidableEq, Repr

structure BuildInfo where
  Building : Bool
  Result : GoString
  deriving DecidableEq, Repr

structure Credentials where
  Username : GoString
  ApiToken : GoString
  Crumb : Crumb
  deriving DecidableEq, Repr

/-! ## The world: requests, replies, effects -/

/-- An `*http.Request` as it is handed to `client.Do`. -/
structure Request where
  method : GoString
  url : GoString
  header : Header
  deriving DecidableEq, Repr

/-- An `*http.Response`: its header, and what reading its body gives
(`io.ReadAll`, followed by `json.Unmarshal` into `β` where the program
decodes the body). -/
structure Response (β : Type) where
  header : Header
  body : Except Error β

/-- What happens to one HTTP exchange. -/
inductive Reply (β : Type) where
  /-- `http.NewRequest` rejects the URL: nothing is sent -/
  | invalid (err : Error)
  /-- `client.Do` returns an error -/
  | failed (err : Error)
  /-- `client.Do` returns a response -/
  | response (resp : Response β)

/-- The error of `http.NewRequest`, if any. -/
def Reply.newRequest {β : Type} : Reply β → Option Error
  | .invalid err => some err
  | _ => none

/-- The result of `client.Do`. -/
def Reply.send {β : Type} : Reply β → Except Error (Response β)
  | .invalid err => .error err
  | .failed err => .error err
  | .response resp => .ok resp

/-- The server as the run meets it: one reply per exchange, those of the poll
loop indexed by the iteration. -/
structure World where
  crumbIssuer : Reply Crumb
  buildWithParameters : Reply Unit
  queueItem : Reply QueueInfo
  buildInfo : Nat → Reply BuildInfo
  progressiveText : Nat → Reply GoString

/-- The effects of a run so far: the requests handed to `client.Do`, oldest
first, and the bytes written to standard output. -/
structure Sys where
  requests : List Request
  stdout : GoString
  deriving DecidableEq, Repr

/-! ## The functions of main.go -/

/-- Go `Request.SetBasicAuth(username, password)`. -/
def SetBasicAuth (req : Request) (username password : GoString) : Request :=
  let auth := ascii "Basic " ++ base64 (username ++ ascii ":" ++ password)
  { req with header := Header.Set req.header (ascii "Authorization") auth }

/-- The header lines `DoRequest` sets on the request before it sends it
(lines 238-242): the crumb when both its parts are non-empty, then the basic
authentication. -/
def authorize (req : Request) (credentials : Credentials) : Request :=
  let req1 :=
    if credentials.Crumb.Crumb ≠ [] ∧ credentials.Crumb.CrumbRequestField ≠ [] then
      let crumb := credentials.Crumb
      { req with header := Header.Set req.header crumb.CrumbRequestField crumb.Crumb }
    else req
  SetBasicAuth req1 credentials.Username credentials.ApiToken

/-- `DoRequest` (lines 237-250); `sent` is the result of `client.Do(req)`. -/
def DoRequest {β : Type} (sys : Sys) (req : Request) (credentials : Credentials)
    (sent : Except Error (Response β)) : Sys × Except Error (Response β) :=
  let sys1 := { sys with requests := sys.requests ++ [authorize req credentials] }
  match sent with
  | .error err => (sys1, .error (.request err))
  | .ok resp => (sys1, .ok resp)

/-- `GetCrumb` (lines 209-235). -/
def GetCrumb (sys : Sys) (jenkinsHost : GoString) (credentials : Credentials)
    (reply : Reply Crumb) : Sys × Except Error Crumb :=
  let url := jenkinsHost ++ ascii "/crumbIssuer/api/json"
  match reply.newRequest with
  | some err => (sys, .error err)
  | none =>
    match DoRequest sys ⟨ascii "GET", url, []⟩ credentials reply.send with
    | (sys1, .error err) => (sys1, .error err)
    | (sys1, .ok resp) =>
      match resp.body with
      | .error err => (sys1, .error err)
      | .ok crb => (sys1, .ok crb)

/-- `GetQueueInfo` (lines 114-139). -/
def GetQueueInfo (sys : Sys) (credentials : Credentials) (location : GoString)
    (reply : Reply QueueInfo) : Sys × Except Error QueueInfo :=
  match reply.newRequest with
  | some err => (sys, .error err)
  | none =>
    match DoRequest sys ⟨ascii "GET", location ++ ascii "/api/json", []⟩ credentials
        reply.send with
    | (sys1, .error err) => (sys1, .error err)
    | (sys1, .ok resp) =>
      match resp.body with
      | .error err => (sys1, .error err)
      | .ok queueInfo => (sys1, .ok queueInfo)

/-- The parameters of `TriggerBuild` (lines 89-93): one `Add` per entry of the
map, then `Encode`. -/
def buildParams (args : GoMap GoString) : GoString :=
  Values.Encode (args.foldl (fun params kv => Values.Add params kv.1 kv.2) [])

/-- `TriggerBuild` (lines 88-112); it panics where it meets an error. -/
def TriggerBuild (sys : Sys) (jenkinsHost : GoString) (credentials : Credentials)
    (jenkinsJob : GoString) (args : GoMap GoString) (w : World) : Sys × Except Panic Int :=
  let paramsString := buildParams args
  let url := jenkinsHost ++ ascii "/job/" ++ jenkinsJob ++ ascii "/buildWithParameters?"
    ++ paramsString
  match w.buildWithParameters.newRequest with
  | some err => (sys, .error (.err err))
  | none =>
    match DoRequest sys ⟨ascii "POST", url, []⟩ credentials w.buildWithParameters.send with
    | (sys1, .error err) => (sys1, .error (.err err))
    | (sys1, .ok resp) =>
      match GetQueueInfo sys1 credentials (resp.header.Get (ascii "Location")) w.queueItem with
      | (sys2, .error err) => (sys2, .error (.err err))
      | (sys2, .ok queueInfo) => (sys2, .ok queueInfo.QueueExecutable.Number)

/-- The URL `GetBuildInfo` requests (line 185). -/
def buildInfoURL (jenkinsHost jenkinsJob : GoString) (buildNumber : Int) : GoString :=
  jenkinsHost ++ ascii "/job/" ++ jenkinsJob ++ ascii "/" ++ Itoa buildNumber
    ++ ascii "/api/json"

/-- `GetBuildInfo` (lines 182-207). -/
def GetBuildInfo (sys : Sys) (jenkinsHost : GoString) (credentials : Credentials)
    (jenkinsJob : GoString) (buildNumber : Int) (reply : Reply BuildInfo) :
    Sys × Except Error BuildInfo :=
  match reply.newRequest with
  | some err => (sys, .error err)
  | none =>
    match DoRequest sys ⟨ascii "GET", buildInfoURL jenkinsHost jenkinsJob buildNumber, []⟩
        credentials reply.send with
    | (sys1, .error err) => (sys1, .error err)
    | (sys1, .ok resp) =>
      match resp.body with
      | .error err => (sys1, .error err)
      | .ok buildInfo => (sys1, .ok buildInfo)

/-- The URL `GetBuildLog` requests (line 142). -/
def logURL (jenkinsHost jenkinsJob : GoString) (buildNumber start : Int) : GoString :=
  jenkinsHost ++ ascii "/job/" ++ jenkinsJob ++ ascii "/" ++ Itoa buildNumber
    ++ ascii "/logText/progressiveText?start=" ++ Itoa start

/-- The three results of `GetBuildLog`. -/
structure LogResult where
  moreData : Bool
  textSize : Int
  err : Option Error
  deriving DecidableEq, Repr

/-- `GetBuildLog` (lines 141-180); `fmt.Println` writes the body and a line
feed. -/
def GetBuildLog (sys : Sys) (jenkinsHost : GoString) (credentials : Credentials)
    (jenkinsJob : GoString) (buildNumber : Int) (start : Int) (reply : Reply GoString) :
    Sys × LogResult :=
  match reply.newRequest with
  | some err => (sys, ⟨false, 0, some err⟩)
  | none =>
    match DoRequest sys ⟨ascii "GET", logURL jenkinsHost jenkinsJob buildNumber start, []⟩
        credentials reply.send with
    | (sys1, .error err) => (sys1, ⟨false, 0, some err⟩)
    | (sys1, .ok resp) =>
      match resp.body with
      | .error err => (sys1, ⟨false, 0, some err⟩)
      | .ok body =>
        let sys2 :=
          if TrimSpaceIsEmpty body then sys1
          else { sys1 with stdout := sys1.stdout ++ body ++ [10] }
        let moreDataString := resp.header.Get (ascii "X-More-Data")
        let textSizeString := resp.header.Get (ascii "X-Text-Size")
        match Atoi textSizeString with
        | .error err => (sys2, ⟨false, 0, some err⟩)
        | .ok textSize =>
          if moreDataString ≠ [] then
            match ParseBool moreDataString with
            | .error err => (sys2, ⟨false, 0, some err⟩)
            | .ok moreData => (sys2, ⟨moreData, textSize, none⟩)
          else (sys2, ⟨false, textSize, none⟩)

/-- How the poll loop stands when it is left, or when the bound on its
iterations is reached. -/
inductive Poll where
  /-- still polling -/
  | running
  /-- `panic(err)` inside the loop -/
  | panicked (err : Error)
  /-- `break`, with the last `buildInfo` -/
  | broke (buildInfo : BuildInfo)
  deriving DecidableEq, Repr

/-- The poll loop at the point it is left: the effects so far, the index of
the last iteration begun, and how it stands. -/
structure PollEnd where
  sys : Sys
  iter : Nat
  status : Poll
  deriving DecidableEq, Repr

/-- The poll loop of `main` (lines 65-81) from iteration `i` on, with the
current `textSize`, for at most `fuel` iterations. -/
def pollLoop (w : World) (jenkinsHost : GoString) (credentials : Credentials)
    (job : GoString) (buildNumber : Int) : Nat → Nat → Int → Sys → PollEnd
  | 0, i, _, sys => ⟨sys, i, .running⟩
  | fuel + 1, i, textSize, sys =>
    match GetBuildInfo sys jenkinsHost credentials job buildNumber (w.buildInfo i) with
    | (sys1, .error err) => ⟨sys1, i, .panicked err⟩
    | (sys1, .ok buildInfo) =>
      match GetBuildLog sys1 jenkinsHost credentials job buildNumber textSize
          (w.progressiveText i) with
      | (sys2, ⟨_, _, some err⟩) => ⟨sys2, i, .panicked err⟩
      | (sys2, ⟨moreData, textSize1, none⟩) =>
        if !moreData && !buildInfo.Building then ⟨sys2, i, .broke buildInfo⟩
        else pollLoop w jenkinsHost credentials job buildNumber fuel (i + 1) textSize1 sys2

/-- The command line and the environment of the process. -/
structure Input where
  job : GoString
  args : List GoString
  JENKINS_HOST_URL : GoString
  JENKINS_USERNAME : GoString
  JENKINS_API_TOKEN : GoString

/-- How the process stands at the end of a run. -/
inductive Exit where
  /-- the bound on the poll iterations was reached: the process is still polling -/
  | running
  /-- `main` returns: exit status 0 -/
  | returned
  /-- `log.Fatalf`: the message is logged, exit status 1 -/
  | fatal (msg : GoString)
  /-- an unrecovered panic: exit status 2 -/
  | panicked (p : Panic)
  deriving DecidableEq, Repr

/-- The exit status of the process, once it has one. -/
def Exit.code : Exit → Option Nat
  | .running => none
  | .returned => some 0
  | .fatal _ => some 1
  | .panicked _ => some 2

/-- A run of the program: its effects and how it ends. -/
structure Run where
  sys : Sys
  exit : Exit
  deriving DecidableEq, Repr

/-- `main` up to the end of the poll loop (lines 22-81): either the run is
over before or inside the loop, or the loop is left by `break` with the
effects so far and the last `buildInfo`. -/
def runToPoll (inp : Input) (w : World) (fuel : Nat) : Except Run (Sys × BuildInfo) :=
  let sys : Sys := ⟨[], []⟩
  match parseArgs inp.args with
  | .error p => .error ⟨sys, .panicked p.2⟩
  | .ok argsMap =>
    let credentials : Credentials := ⟨inp.JENKINS_USERNAME, inp.JENKINS_API_TOKEN, ⟨[], []⟩⟩
    match GetCrumb sys inp.JENKINS_HOST_URL credentials w.crumbIssuer with
    | (sys1, .error err) => .error ⟨sys1, .panicked (.err err)⟩
    | (sys1, .ok c) =>
      let credentials := { credentials with Crumb := c }
      match TriggerBuild sys1 inp.JENKINS_HOST_URL credentials inp.job argsMap w with
      | (sys2, .error p) => .error ⟨sys2, .panicked p⟩
      | (sys2, .ok buildNumber) =>
        let e := pollLoop w inp.JENKINS_HOST_URL credentials inp.job buildNumber fuel 0 0 sys2
        match e.status with
        | .running => .error ⟨e.sys, .running⟩
        | .panicked err => .error ⟨e.sys, .panicked (.err err)⟩
        | .broke buildInfo => .ok (e.sys, buildInfo)

/-- The end of `main` (lines 83-85) once the loop is left with `buildInfo`. -/
def reportResult (sys : Sys) (buildInfo : BuildInfo) : Run :=
  if buildInfo.Result ≠ ascii "SUCCESS" then
    ⟨sys, .fatal (ascii "Unexpected build result " ++ buildInfo.Result)⟩
  else ⟨sys, .returned⟩

/-- `main` (lines 22-86), with at most `fuel` iterations of the poll loop. -/
def main (inp : Input) (w : World) (fuel : Nat) : Run :=
  match runToPoll inp w fuel with
  | .error run => run
  | .ok (sys, buildInfo) => reportResult sys buildInfo

/-! ## Specification-side notions -/

/-- The text of an argument before its first `=`. -/
def argKey (a : GoString) : GoString := a.takeWhile (fun c => c ≠ 61)

/-- The text of an argument after its first `=`. -/
def argValue (a : GoString) : GoString := (a.dropWhile (fun c => c ≠ 61)).tail

/-- Go `strings.Split(s, sep)` for a one-byte separator. -/
def Split : GoString → Byte → List GoString
  | [], _ => [[]]
  | c :: rest, sep =>
    if c = sep then [] :: Split rest sep
    else
      match Split rest sep with
      | p :: ps => (c :: p) :: ps
      | [] => [[c]]

/-- The pieces joined by `&`. -/
def joinAmp : List GoString → GoString
  | [] => []
  | p :: ps => p ++ (ps.map (fun q => 38 :: q)).flatten

/-- The pair `key=value` with both parts escaped. -/
def queryPair (k v : GoString) : GoString := QueryEscape k ++ 61 :: QueryEscape v

/-- The keys of a map in the order of Go string comparison. -/
def sortedKeys (args : GoMap GoString) : List GoString :=
  (GoMap.keys args).insertionSort (· ≤ ·)

/-- The byte of a decimal digit. -/
def digitByte (d : Nat) : Byte := Fin.ofNat (48 + d)

/-- The string `s` is a base-10 integer of value `n`: an optional sign, then
one or more decimal digits, most significant first. -/
def IsBase10 (s : GoString) (n : Int) : Prop :=
  ∃ ds : List Nat, ds ≠ [] ∧ (∀ d ∈ ds, d < 10) ∧
    ((s = ds.map digitByte ∧ n = (Nat.ofDigits 10 ds.reverse : Nat)) ∨
     (s = 43 :: ds.map digitByte ∧ n = (Nat.ofDigits 10 ds.reverse : Nat)) ∨
     (s = 45 :: ds.map digitByte ∧ n = -((Nat.ofDigits 10 ds.reverse : Nat) : Int)))

/-- What the server answers in the iterations of the poll loop, one value per
iteration: the build information, the log chunk, the more-data flag and the
text size. -/
structure Script where
  info : Nat → BuildInfo
  chunk : Nat → GoString
  moreData : Nat → Bool
  textSize : Nat → Int

/-- Iteration `i` meets no request error and the server answers it as the
script says: the build-information request gets `s.info i`; the log request
gets the body `s.chunk i`, an `X-Text-Size` header that `strconv.Atoi` reads as
`s.textSize i`, and an `X-More-Data` header that is absent or empty with
`s.moreData i = false`, or that `strconv.ParseBool` reads as `s.moreData i`. -/
def IterOk (w : World) (s : Script) (i : Nat) : Prop :=
  (∃ h, w.buildInfo i = .response ⟨h, .ok (s.info i)⟩) ∧
  (∃ h, w.progressiveText i = .response ⟨h, .ok (s.chunk i)⟩ ∧
    Atoi (Header.Get h (ascii "X-Text-Size")) = .ok (s.textSize i) ∧
    ((Header.Get h (ascii "X-More-Data") = [] ∧ s.moreData i = false) ∨
     (Header.Get h (ascii "X-More-Data") ≠ [] ∧
       ParseBool (Header.Get h (ascii "X-More-Data")) = .ok (s.moreData i))))

/-- The exit test of the poll loop (line 76) at iteration `i`. -/
def Script.terminal (s : Script) (i : Nat) : Bool :=
  !s.moreData i && !(s.info i).Building

/-- The start offset of the log request of iteration `i`: 0 at first, then
the text size reported in the iteration before. -/
def Script.startAt (s : Script) : Nat → Int
  | 0 => 0
  | i + 1 => s.textSize i

/-- What `GetBuildLog` writes for a chunk: the chunk and a line feed, or
nothing when the chunk is white space only. -/
def printed (chunk : GoString) : GoString :=
  if TrimSpaceIsEmpty chunk then [] else chunk ++ [10]

/-- The two requests of one poll iteration, as sent. -/
def iterRequests (jenkinsHost : GoString) (credentials : Credentials) (job : GoString)
    (buildNumber start : Int) : List Request :=
  [authorize ⟨ascii "GET", buildInfoURL jenkinsHost job buildNumber, []⟩ credentials,
   authorize ⟨ascii "GET", logURL jenkinsHost job buildNumber start, []⟩ credentials]

/-- The effects after `m` error-free poll iterations that follow script `s`,
starting from the effects `sys`. -/
def sysAfter (jenkinsHost : GoString) (credentials : Credentials) (job : GoString)
    (buildNumber : Int) (s : Script) (sys : Sys) : Nat → Sys
  | 0 => sys
  | m + 1 =>
    let before := sysAfter jenkinsHost credentials job buildNumber s sys m
    ⟨before.requests ++ iterRequests jenkinsHost credentials job buildNumber (s.startAt m),
      before.stdout ++ printed (s.chunk m)⟩

/-- The number of poll iterations carried out when the loop stands as `e`. -/
def PollEnd.done (e : PollEnd) : Nat :=
  match e.status with
  | .running => e.iter
  | _ => e.iter + 1

/-! ## Sample inputs -/

/-- A command line with one build parameter. -/
def sampleInput : Input :=
  ⟨ascii "job", [ascii "branch=main"], ascii "http://ci", ascii "user", ascii "token"⟩

/-- A server whose build is finished at the first poll with the given result
and whose log is the given chunk. -/
def sampleWorld (result chunk : GoString) : World where
  crumbIssuer := .response ⟨[], .ok ⟨ascii "abc", ascii "Jenkins-Crumb"⟩⟩
  buildWithParameters := .response ⟨[(ascii "Location", [ascii "http://ci/queue/item/7"])], .ok ()⟩
  queueItem := .response ⟨[], .ok ⟨⟨12⟩⟩⟩
  buildInfo := fun _ => .response ⟨[], .ok ⟨false, result⟩⟩
  progressiveText := fun _ =>
    .response ⟨[(ascii "X-Text-Size", [Itoa chunk.length])], .ok chunk⟩

/-- A server whose log sizes shrink: it reports the text sizes 5, 3, 3, ...
and more data in the first two iterations; the build is finished throughout. -/
def shrinkingWorld : World where
  crumbIssuer := .response ⟨[], .ok ⟨ascii "abc", ascii "Jenkins-Crumb"⟩⟩
  buildWithParameters := .response ⟨[(ascii "Location", [ascii "http://ci/queue/item/7"])], .ok ()⟩
  queueItem := .response ⟨[], .ok ⟨⟨12⟩⟩⟩
  buildInfo := fun _ => .response ⟨[], .ok ⟨false, ascii "SUCCESS"⟩⟩
  progressiveText := fun i =>
    match i with
    | 0 => .response ⟨[(ascii "X-Text-Size", [ascii "5"]), (ascii "X-More-Data", [ascii "true"])],
        .ok (ascii "line1")⟩
    | 1 => .response ⟨[(ascii "X-Text-Size", [ascii "3"]), (ascii "X-More-Data", [ascii "true"])],
        .ok []⟩
    | _ => .response ⟨[(ascii "X-Text-Size", [ascii "3"])], .ok []⟩

/-- What `shrinkingWorld` answers in the poll loop. -/
def shrinkingScript : Script where
  info := fun _ => ⟨false, ascii "SUCCESS"⟩
  chunk := fun i => match i with
    | 0 => ascii "line1"
    | _ => []
  moreData := fun i => match i with
    | 0 => true
    | 1 => true
    | _ => false
  textSize := fun i => match i with
    | 0 => 5
    | _ => 3

/-- A server whose log grows: the chunks `ab`, two spaces and `cd`, with the
text sizes 2, 4, 6 and more data announced in the first two iterations. -/
def growingWorld : World where
  crumbIssuer := .response ⟨[], .ok ⟨ascii "abc", ascii "Jenkins-Crumb"⟩⟩
  buildWithParameters := .response ⟨[(ascii "Location", [ascii "http://ci/queue/item/7"])], .ok ()⟩
  queueItem := .response ⟨[], .ok ⟨⟨12⟩⟩⟩
  buildInfo := fun _ => .response ⟨[], .ok ⟨false, ascii "SUCCESS"⟩⟩
  progressiveText := fun i =>
    match i with
    | 0 => .response ⟨[(ascii "X-Text-Size", [ascii "2"]), (ascii "X-More-Data", [ascii "true"])],
        .ok (ascii "ab")⟩
    | 1 => .response ⟨[(ascii "X-Text-Size", [ascii "4"]), (ascii "X-More-Data", [ascii "true"])],
        .ok (ascii "  ")⟩
    | _ => .response ⟨[(ascii "X-Text-Size", [ascii "6"])], .ok (ascii "cd")⟩

/-- What `growingWorld` answers in the poll loop. -/
def growingScript : Script where
  info := fun _ => ⟨false, ascii "SUCCESS"⟩
  chunk := fun i => match i with
    | 0 => ascii "ab"
    | 1 => ascii "  "
    | _ => ascii "cd"
  moreData := fun i => match i with
    | 0 => true
    | 1 => true
    | _ => false
  textSize := fun i => match i with
    | 0 => 2
    | 1 => 4
    | _ => 6

/-- The request carries header `f` with the single value `t`, the name taken
in its canonical form as `net/http` stores it. -/
def Carries (req : Request) (f t : GoString) : Prop :=
  GoMap.get req.header (CanonicalMIMEHeaderKey f) = some [t]

instance (req : Request) (f t : GoString) : Decidable (Carries req f t) := by
  unfold Carries
  infer_instance

/-- The effects `sys2` extend the effects `sys1` by requests that all
satisfy `P`. -/
def Extends (P : Request → Prop) (sys1 sys2 : Sys) : Prop :=
  ∃ more, sys2.requests = sys1.requests ++ more ∧ ∀ r ∈ more, P r

/-- The sample server with another answer of the crumb issuer. -/
def crumbWorld (crumb field : GoString) : World :=
  { sampleWorld (ascii "SUCCESS") (ascii "log") with
    crumbIssuer := .response ⟨[], .ok ⟨crumb, field⟩⟩ }

/-- The credentials of the sample runs once the crumb is acquired. -/
def sampleCredentials : Credentials :=
  ⟨ascii "user", ascii "token", ⟨ascii "abc", ascii "Jenkins-Crumb"⟩⟩

/-! ## Lemmas: strings and maps -/

theorem Cut_of_not_mem (s : GoString) (sep : Byte) (h : sep ∉ s) :
    Cut s sep = (s, [], false) := by
  induction s with
  | nil => rfl
  | cons c rest ih =>
    have hc : c ≠ sep := fun e => h (by simp [e])
    have hr : sep ∉ rest := fun e => h (by simp [e])
    simp [Cut, hc, ih hr]

theorem Cut_append (k v : GoString) (sep : Byte) (h : sep ∉ k) :
    Cut (k ++ sep :: v) sep = (k, v, true) := by
  induction k with
  | nil => simp [Cut]
  | cons c rest ih =>
    have hc : c ≠ sep := fun e => h (by simp [e])
    have hr : sep ∉ rest := fun e => h (by simp [e])
    simp [Cut, hc, ih hr]

theorem argKey_not_mem (a : GoString) : (61 : Byte) ∉ argKey a := by
  intro h
  have := List.mem_takeWhile_imp h
  simp at this

theorem argKey_cons (c : Byte) (rest : GoString) :
    argKey (c :: rest) = if c = 61 then [] else c :: argKey rest := by
  by_cases hc : c = 61 <;> simp [argKey, List.takeWhile_cons, hc]

theorem argValue_cons (c : Byte) (rest : GoString) :
    argValue (c :: rest) = if c = 61 then rest else argValue rest := by
  by_cases hc : c = 61 <;> simp [argValue, List.dropWhile_cons, hc]

theorem arg_split (a : GoString) (h : (61 : Byte) ∈ a) :
    a = argKey a ++ 61 :: argValue a := by
  induction a with
  | nil => simp at h
  | cons c rest ih =>
    by_cases hc : c = 61
    · subst hc; simp [argKey_cons, argValue_cons]
    · have hr : (61 : Byte) ∈ rest := by
        rcases List.mem_cons.1 h with e | e
        · exact absurd e.symm hc
        · exact e
      have := ih hr
      simp only [argKey_cons, argValue_cons, if_neg hc, List.cons_append]
      exact congrArg (List.cons c) this

theorem argKey_append (k v : GoString) (h : (61 : Byte) ∉ k) :
    argKey (k ++ 61 :: v) = k ∧ argValue (k ++ 61 :: v) = v := by
  induction k with
  | nil => simp [argKey_cons, argValue_cons]
  | cons c rest ih =>
    have hc : c ≠ 61 := fun e => h (by simp [e])
    have hr : (61 : Byte) ∉ rest := fun e => h (by simp [e])
    have := ih hr
    simp only [List.cons_append, argKey_cons, argValue_cons, if_neg hc, this.1, this.2,
      and_self]

theorem SplitN_two_of_mem (a : GoString) (h : (61 : Byte) ∈ a) :
    SplitN a 61 2 = [argKey a, argValue a] := by
  have hs := arg_split a h
  have hc := Cut_append (argKey a) (argValue a) 61 (argKey_not_mem a)
  rw [← hs] at hc
  simp [SplitN, hc]

theorem SplitN_two_of_not_mem (a : GoString) (h : (61 : Byte) ∉ a) :
    SplitN a 61 2 = [a] := by
  simp [SplitN, Cut_of_not_mem a 61 h]

theorem GoMap.set_of_not_mem {ν : Type} (m : GoMap ν) (k : GoString) (v : ν)
    (h : k ∉ GoMap.keys m) : GoMap.set m k v = m ++ [(k, v)] := by
  induction m with
  | nil => rfl
  | cons p rest ih =>
    obtain ⟨k1, v1⟩ := p
    have h1 : k1 ≠ k := fun e => h (by simp [GoMap.keys, e])
    have h2 : k ∉ GoMap.keys rest := fun e => h (by
      simp only [GoMap.keys, List.map_cons, List.mem_cons]; exact Or.inr e)
    simp [GoMap.set, h1, ih h2]

theorem GoMap.get_of_mem {ν : Type} (m : GoMap ν) (k : GoString) (v : ν)
    (hn : (GoMap.keys m).Nodup) (h : (k, v) ∈ m) : GoMap.get m k = some v := by
  induction m with
  | nil => simp at h
  | cons p rest ih =>
    obtain ⟨k1, v1⟩ := p
    simp only [GoMap.keys, List.map_cons, List.nodup_cons] at hn
    rcases List.mem_cons.1 h with e | e
    · cases e; simp [GoMap.get]
    · have hk : k1 ≠ k := by
        intro e1; subst e1
        exact hn.1 (List.mem_map.2 ⟨(k1, v), e, rfl⟩)
      simp [GoMap.get, hk, ih hn.2 e]

theorem GoMap.mem_of_get {ν : Type} (m : GoMap ν) (k : GoString) (v : ν)
    (h : GoMap.get m k = some v) : (k, v) ∈ m := by
  induction m with
  | nil => simp [GoMap.get] at h
  | cons p rest ih =>
    obtain ⟨k1, v1⟩ := p
    by_cases hk : k1 = k
    · simp [GoMap.get, hk] at h; simp [hk, h]
    · simp [GoMap.get, hk] at h; simp [ih h]

theorem GoMap.get_eq_none {ν : Type} (m : GoMap ν) (k : GoString)
    (h : k ∉ GoMap.keys m) : GoMap.get m k = none := by
  cases hg : GoMap.get m k with
  | none => rfl
  | some v =>
    exact absurd (List.mem_map.2 ⟨(k, v), GoMap.mem_of_get m k v hg, rfl⟩) h

/-! ## Lemmas: the command line -/

theorem parseArgsFrom_ok (args : List GoString) :
    ∀ (m : GoMap GoString) (i : Nat), (∀ a ∈ args, (61 : Byte) ∈ a) →
      (GoMap.keys m ++ args.map argKey).Nodup →
      parseArgsFrom m i args = .ok (m ++ args.map (fun a => (argKey a, argValue a))) := by
  induction args with
  | nil => intro m i _ _; simp [parseArgsFrom]
  | cons a rest ih =>
    intro m i h hn
    have ha : (61 : Byte) ∈ a := h a (by simp)
    have hk : argKey a ∉ GoMap.keys m := by
      intro hm
      have := (List.nodup_append.1 hn).2.2
      exact this hm (by simp)
    have hset := GoMap.set_of_not_mem m (argKey a) (argValue a) hk
    have hn2 : (GoMap.keys (m ++ [(argKey a, argValue a)]) ++ rest.map argKey).Nodup := by
      simpa [GoMap.keys, List.append_assoc] using hn
    have := ih (m ++ [(argKey a, argValue a)]) (i + 1) (fun b hb => h b (by simp [hb])) hn2
    simp [parseArgsFrom, SplitN_two_of_mem a ha, hset, this]

theorem parseArgsFrom_error (pre : List GoString) (bad : GoString) (post : List GoString) :
    ∀ (m : GoMap GoString) (i : Nat), (∀ a ∈ pre, (61 : Byte) ∈ a) → (61 : Byte) ∉ bad →
      parseArgsFrom m i (pre ++ bad :: post) = .error (i + pre.length, .indexOutOfRange 1 1) := by
  induction pre with
  | nil => intro m i _ hb; simp [parseArgsFrom, SplitN_two_of_not_mem bad hb]
  | cons a rest ih =>
    intro m i h hb
    have ha : (61 : Byte) ∈ a := h a (by simp)
    have := ih (m.set (argKey a) (argValue a)) (i + 1) (fun b hb => h b (by simp [hb])) hb
    simp [parseArgsFrom, SplitN_two_of_mem a ha, this]
    omega

/-- A list with an element failing `p` splits at the first such element. -/
theorem exists_first_bad (args : List GoString) (h : ∃ a ∈ args, (61 : Byte) ∉ a) :
    ∃ pre bad post, args = pre ++ bad :: post ∧ (∀ a ∈ pre, (61 : Byte) ∈ a) ∧
      (61 : Byte) ∉ bad := by
  induction args with
  | nil => simp at h
  | cons a rest ih =>
    by_cases ha : (61 : Byte) ∈ a
    · obtain ⟨b, hb, hb2⟩ := h
      have hb3 : b ∈ rest := by
        rcases List.mem_cons.1 hb with e | e
        · subst e; exact absurd ha hb2
        · exact e
      obtain ⟨pre, bad, post, e, h1, h2⟩ := ih ⟨b, hb3, hb2⟩
      refine ⟨a :: pre, bad, post, by simp [e], ?_, h2⟩
      intro c hc
      rcases List.mem_cons.1 hc with e | e
      · subst e; exact ha
      · exact h1 c e
    · exact ⟨[], a, rest, rfl, by simp, ha⟩

/-! ## Lemmas: how main ends -/

theorem TriggerBuild_error (sys : Sys) (host : GoString) (cred : Credentials)
    (job : GoString) (args : GoMap GoString) (w : World) (p : Panic)
    (h : (TriggerBuild sys host cred job args w).2 = .error p) : ∃ e, p = .err e := by
  unfold TriggerBuild at h
  simp only at h
  split at h
  · injection h with h; exact ⟨_, h.symm⟩
  · split at h
    · injection h with h; exact ⟨_, h.symm⟩
    · split at h
      · injection h with h; exact ⟨_, h.symm⟩
      · cases h

theorem main_of_parse_error (inp : Input) (w : World) (fuel : Nat) (p : Nat × Panic)
    (h : parseArgs inp.args = .error p) :
    main inp w fuel = ⟨⟨[], []⟩, .panicked p.2⟩ := by
  simp [main, runToPoll, h]

theorem main_of_parse_ok (inp : Input) (w : World) (fuel : Nat) (m : GoMap GoString)
    (h : parseArgs inp.args = .ok m) (idx len : Nat) :
    (main inp w fuel).exit ≠ .panicked (.indexOutOfRange idx len) := by
  unfold main runToPoll
  simp only [h]
  split
  · rename_i run hrun
    split at hrun
    · cases hrun; simp
    · split at hrun
      · rename_i sys2 p htb
        cases hrun
        obtain ⟨e, he⟩ := TriggerBuild_error _ _ _ _ _ _ p (by rw [htb])
        simp [he]
      · split at hrun
        · cases hrun; simp
        · cases hrun; simp
        · cases hrun
  · simp only [reportResult]
    split <;> simp

/-! ## Lemmas: strconv -/

theorem isDigit_digitByte (d : Nat) (h : d < 10) :
    isDigit (digitByte d) = true ∧ (digitByte d).val - 48 = d := by
  have hv : (digitByte d).val = 48 + d := by
    simp only [digitByte, Fin.ofNat]
    omega
  simp only [isDigit, hv, Bool.and_eq_true, decide_eq_true_eq]
  omega

theorem parseUintLoop_digits (ds : List Nat) :
    ∀ acc : Nat, (∀ d ∈ ds, d < 10) →
      acc * 10 ^ ds.length + Nat.ofDigits 10 ds.reverse < 18446744073709551616 →
      parseUintLoop acc (ds.map digitByte) =
        .ok (acc * 10 ^ ds.length + Nat.ofDigits 10 ds.reverse) := by
  induction ds with
  | nil => intro acc _ _; simp [parseUintLoop]
  | cons d ds ih =>
    intro acc hd hlt
    have hd10 : d < 10 := hd d (by simp)
    obtain ⟨h1, h2⟩ := isDigit_digitByte d hd10
    have hval : acc * 10 ^ (d :: ds).length + Nat.ofDigits 10 (d :: ds).reverse
        = (acc * 10 + d) * 10 ^ ds.length + Nat.ofDigits 10 ds.reverse := by
      simp only [List.length_cons, List.reverse_cons, Nat.ofDigits_append, List.length_reverse,
        Nat.ofDigits_singleton, pow_succ]
      ring
    rw [hval] at hlt ⊢
    have hpos : 0 < 10 ^ ds.length := pow_pos (by norm_num) _
    have hle : acc * 10 + d ≤ (acc * 10 + d) * 10 ^ ds.length :=
      Nat.le_mul_of_pos_right _ hpos
    have hn1 : acc * 10 + d < 18446744073709551616 := by omega
    have hacc : ¬ (1844674407370955162 ≤ acc) := by omega
    have hn1b : ¬ (18446744073709551616 ≤ acc * 10 + d) := by omega
    have := ih (acc * 10 + d) (fun x hx => hd x (by simp [hx])) hlt
    simp only [List.map_cons, parseUintLoop, h1, if_true, hacc, if_false, h2, hn1b]
    exact this

theorem ParseUint_digits (ds : List Nat) (hne : ds ≠ []) (hd : ∀ d ∈ ds, d < 10)
    (hlt : Nat.ofDigits 10 ds.reverse < 18446744073709551616) :
    ParseUint (ds.map digitByte) = .ok (Nat.ofDigits 10 ds.reverse) := by
  have := parseUintLoop_digits ds 0 hd (by simpa using hlt)
  simp only [ParseUint, List.map_eq_nil_iff, hne, if_false]
  simpa using this

theorem digitByte_ne_sign (d : Nat) (h : d < 10) :
    digitByte d ≠ 43 ∧ digitByte d ≠ 45 := by
  have hv : (digitByte d).val = 48 + d := by
    simp only [digitByte, Fin.ofNat]
    omega
  have h43 : ((43 : Byte) : Nat) = 43 := rfl
  have h45 : ((45 : Byte) : Nat) = 45 := rfl
  constructor <;> intro e <;> rw [e] at hv <;> omega

theorem Atoi_of_IsBase10 (s : GoString) (n : Int) (h : IsBase10 s n)
    (hlo : -9223372036854775808 ≤ n) (hhi : n < 9223372036854775808) :
    Atoi s = .ok n := by
  obtain ⟨ds, hne, hd, hcase⟩ := h
  obtain ⟨d0, ds0, rfl⟩ := List.exists_cons_of_ne_nil hne
  have h0 := digitByte_ne_sign d0 (hd d0 (by simp))
  have hpu := ParseUint_digits (d0 :: ds0) hne hd
  rw [List.map_cons] at hpu
  generalize Nat.ofDigits 10 (d0 :: ds0).reverse = v at hpu hcase
  rw [List.map_cons] at hcase
  rcases hcase with ⟨hs, hn⟩ | ⟨hs, hn⟩ | ⟨hs, hn⟩
  · have hp := hpu (by omega)
    have hnot : ¬ (9223372036854775808 ≤ v) := by omega
    subst hs
    simp [Atoi, ParseInt, h0.1, h0.2, hp, hnot, hn]
  · have hp := hpu (by omega)
    have hnot : ¬ (9223372036854775808 ≤ v) := by omega
    subst hs
    simp [Atoi, ParseInt, hp, hnot, hn]
  · have hp := hpu (by omega)
    have hnot : ¬ (9223372036854775808 < v) := by omega
    subst hs
    simp [Atoi, ParseInt, hp, hnot, hn]

/-! ## Lemmas: the poll loop -/

theorem canonical_more_data :
    CanonicalMIMEHeaderKey (ascii "X-More-Data") = ascii "X-More-Data" := by decide

theorem GetBuildInfo_ok (sys : Sys) (host : GoString) (cred : Credentials) (job : GoString)
    (bn : Int) (h : Header) (b : BuildInfo) :
    GetBuildInfo sys host cred job bn (.response ⟨h, .ok b⟩) =
      (⟨sys.requests ++ [authorize ⟨ascii "GET", buildInfoURL host job bn, []⟩ cred],
        sys.stdout⟩, .ok b) := by
  simp [GetBuildInfo, Reply.newRequest, Reply.send, DoRequest]

theorem GetBuildLog_ok (sys : Sys) (host : GoString) (cred : Credentials) (job : GoString)
    (bn start : Int) (h : Header) (body : GoString) (md : Bool) (n : Int)
    (hsize : Atoi (Header.Get h (ascii "X-Text-Size")) = .ok n)
    (hmore : (Header.Get h (ascii "X-More-Data") = [] ∧ md = false) ∨
      (Header.Get h (ascii "X-More-Data") ≠ [] ∧
        ParseBool (Header.Get h (ascii "X-More-Data")) = .ok md)) :
    GetBuildLog sys host cred job bn start (.response ⟨h, .ok body⟩) =
      (⟨sys.requests ++ [authorize ⟨ascii "GET", logURL host job bn start, []⟩ cred],
        sys.stdout ++ printed body⟩, ⟨md, n, none⟩) := by
  rcases hmore with ⟨h1, h2⟩ | ⟨h1, h2⟩
  · by_cases hb : TrimSpaceIsEmpty body = true
    · simp [GetBuildLog, Reply.newRequest, Reply.send, DoRequest, hsize, h1, h2, printed, hb]
    · simp [GetBuildLog, Reply.newRequest, Reply.send, DoRequest, hsize, h1, h2, printed, hb]
  · by_cases hb : TrimSpaceIsEmpty body = true
    · simp [GetBuildLog, Reply.newRequest, Reply.send, DoRequest, hsize, h1, h2, printed, hb]
    · simp [GetBuildLog, Reply.newRequest, Reply.send, DoRequest, hsize, h1, h2, printed, hb]

/-- One error-free iteration of the poll loop. -/
theorem pollLoop_step (w : World) (host : GoString) (cred : Credentials) (job : GoString)
    (bn : Int) (s : Script) (fuel i : Nat) (ts : Int) (sys : Sys) (hok : IterOk w s i) :
    pollLoop w host cred job bn (fuel + 1) i ts sys =
      if s.terminal i then
        ⟨⟨sys.requests ++ iterRequests host cred job bn ts, sys.stdout ++ printed (s.chunk i)⟩,
          i, .broke (s.info i)⟩
      else
        pollLoop w host cred job bn fuel (i + 1) (s.textSize i)
          ⟨sys.requests ++ iterRequests host cred job bn ts,
            sys.stdout ++ printed (s.chunk i)⟩ := by
  obtain ⟨⟨hb, hbe⟩, ⟨hl, hle, hsize, hmore⟩⟩ := hok
  have h1 := GetBuildInfo_ok sys host cred job bn hb (s.info i)
  have h2 := GetBuildLog_ok
    ⟨sys.requests ++ [authorize ⟨ascii "GET", buildInfoURL host job bn, []⟩ cred], sys.stdout⟩
    host cred job bn ts hl (s.chunk i) (s.moreData i) (s.textSize i) hsize hmore
  rw [pollLoop, hbe, h1]
  simp only [hle, h2]
  simp [Script.terminal, iterRequests]

/-- The poll loop on a script, from any iteration: either the bound is reached
with no exit test passed, or the loop is left at the first iteration that
passes the exit test. -/
theorem pollLoop_spec (w : World) (host : GoString) (cred : Credentials) (job : GoString)
    (bn : Int) (s : Script) (sys0 : Sys) (fuel : Nat) :
    ∀ i : Nat, (∀ j, i ≤ j → j < i + fuel → IterOk w s j) →
      ((∀ j, i ≤ j → j < i + fuel → s.terminal j = false) ∧
        pollLoop w host cred job bn fuel i (s.startAt i) (sysAfter host cred job bn s sys0 i) =
          ⟨sysAfter host cred job bn s sys0 (i + fuel), i + fuel, .running⟩) ∨
      (∃ k, i ≤ k ∧ k < i + fuel ∧ s.terminal k = true ∧
        (∀ j, i ≤ j → j < k → s.terminal j = false) ∧
        pollLoop w host cred job bn fuel i (s.startAt i) (sysAfter host cred job bn s sys0 i) =
          ⟨sysAfter host cred job bn s sys0 (k + 1), k, .broke (s.info k)⟩) := by
  induction fuel with
  | zero =>
    intro i _
    left
    exact ⟨fun j h1 h2 => by omega, by simp [pollLoop]⟩
  | succ fuel ih =>
    intro i hok
    have hstep := pollLoop_step w host cred job bn s fuel i (s.startAt i)
      (sysAfter host cred job bn s sys0 i) (hok i (le_refl i) (by omega))
    by_cases ht : s.terminal i = true
    · right
      refine ⟨i, le_refl i, by omega, ht, fun j h1 h2 => by omega, ?_⟩
      rw [hstep, if_pos ht]
      rfl
    · have hstep2 : pollLoop w host cred job bn (fuel + 1) i (s.startAt i)
          (sysAfter host cred job bn s sys0 i) =
          pollLoop w host cred job bn fuel (i + 1) (s.startAt (i + 1))
            (sysAfter host cred job bn s sys0 (i + 1)) := by
        rw [hstep, if_neg ht]
        rfl
      have hti : s.terminal i = false := by simpa using ht
      rcases ih (i + 1) (fun j h1 h2 => hok j (by omega) (by omega)) with ⟨hall, he⟩ | ⟨k, hk1, hk2, hk3, hk4, he⟩
      · left
        refine ⟨?_, ?_⟩
        · intro j h1 h2
          rcases Nat.eq_or_lt_of_le h1 with e | e
          · rw [← e]; exact hti
          · exact hall j (by omega) (by omega)
        · rw [hstep2, he]
          have : i + 1 + fuel = i + (fuel + 1) := by omega
          rw [this]
      · right
        refine ⟨k, by omega, by omega, hk3, ?_, ?_⟩
        · intro j h1 h2
          rcases Nat.eq_or_lt_of_le h1 with e | e
          · rw [← e]; exact hti
          · exact hk4 j (by omega) h2
        · rw [hstep2, he]

theorem pollLoop_first_terminal (w : World) (host : GoString) (cred : Credentials)
    (job : GoString) (bn : Int) (s : Script) (sys : Sys) (fuel k : Nat)
    (hok : ∀ i, i < fuel → IterOk w s i) (hk : k < fuel) (ht : s.terminal k = true)
    (hfirst : ∀ j, j < k → s.terminal j = false) :
    pollLoop w host cred job bn fuel 0 0 sys =
      ⟨sysAfter host cred job bn s sys (k + 1), k, .broke (s.info k)⟩ := by
  rcases pollLoop_spec w host cred job bn s sys fuel 0 (fun j _ h2 => hok j (by omega)) with
    ⟨hall, _⟩ | ⟨k2, _, hk2, ht2, hf2, he⟩
  · have := hall k (Nat.zero_le k) (by omega)
    rw [ht] at this
    cases this
  · have hkk : k2 = k := by
      rcases Nat.lt_trichotomy k2 k with h | h | h
      · have := hfirst k2 h
        rw [ht2] at this
        cases this
      · exact h
      · have := hf2 k (Nat.zero_le k) h
        rw [ht] at this
        cases this
    subst hkk
    exact he

theorem pollLoop_no_terminal (w : World) (host : GoString) (cred : Credentials)
    (job : GoString) (bn : Int) (s : Script) (sys : Sys) (fuel : Nat)
    (hok : ∀ i, i < fuel → IterOk w s i) (hnone : ∀ j, j < fuel → s.terminal j = false) :
    pollLoop w host cred job bn fuel 0 0 sys =
      ⟨sysAfter host cred job bn s sys fuel, fuel, .running⟩ := by
  rcases pollLoop_spec w host cred job bn s sys fuel 0 (fun j _ h2 => hok j (by omega)) with
    ⟨_, he⟩ | ⟨k2, _, hk2, ht2, _, _⟩
  · simpa using he
  · have := hnone k2 (by omega)
    rw [ht2] at this
    cases this

/-- On a script the loop never panics, and its effects are those of the
iterations it carried out. -/
theorem pollLoop_sys (w : World) (host : GoString) (cred : Credentials)
    (job : GoString) (bn : Int) (s : Script) (sys : Sys) (fuel : Nat)
    (hok : ∀ i, i < fuel → IterOk w s i) :
    (pollLoop w host cred job bn fuel 0 0 sys).sys =
        sysAfter host cred job bn s sys (pollLoop w host cred job bn fuel 0 0 sys).done ∧
      (pollLoop w host cred job bn fuel 0 0 sys).done ≤ fuel := by
  rcases pollLoop_spec w host cred job bn s sys fuel 0 (fun j _ h2 => hok j (by omega)) with
    ⟨_, he⟩ | ⟨k2, _, hk2, _, _, he⟩
  · have he2 : pollLoop w host cred job bn fuel 0 0 sys =
        ⟨sysAfter host cred job bn s sys fuel, fuel, .running⟩ := by simpa using he
    rw [he2]
    simp [PollEnd.done]
  · have he2 : pollLoop w host cred job bn fuel 0 0 sys =
        ⟨sysAfter host cred job bn s sys (k2 + 1), k2, .broke (s.info k2)⟩ := he
    rw [he2]
    simp only [PollEnd.done, true_and]
    omega

theorem sysAfter_requests_length (host : GoString) (cred : Credentials) (job : GoString)
    (bn : Int) (s : Script) (sys : Sys) (m : Nat) :
    (sysAfter host cred job bn s sys m).requests.length = sys.requests.length + 2 * m := by
  induction m with
  | zero => simp [sysAfter]
  | succ m ih => simp [sysAfter, ih, iterRequests]; omega

theorem sysAfter_requests_log (host : GoString) (cred : Credentials) (job : GoString)
    (bn : Int) (s : Script) (sys : Sys) (m j : Nat) (hj : j < m) :
    (sysAfter host cred job bn s sys m).requests[sys.requests.length + 2 * j + 1]? =
      some (authorize ⟨ascii "GET", logURL host job bn (s.startAt j), []⟩ cred) := by
  induction m with
  | zero => omega
  | succ m ih =>
    have hlen := sysAfter_requests_length host cred job bn s sys m
    rcases Nat.eq_or_lt_of_le (Nat.le_of_lt_succ hj) with e | e
    · subst e
      simp only [sysAfter]
      rw [List.getElem?_append_right (by omega)]
      have : sys.requests.length + 2 * j + 1
          - (sysAfter host cred job bn s sys j).requests.length = 1 := by omega
      rw [this]
      rfl
    · simp only [sysAfter]
      rw [List.getElem?_append_left (by omega)]
      exact ih e

theorem sysAfter_stdout (host : GoString) (cred : Credentials) (job : GoString)
    (bn : Int) (s : Script) (sys : Sys) (m : Nat) :
    (sysAfter host cred job bn s sys m).stdout =
      sys.stdout ++ ((List.range m).map (fun j => printed (s.chunk j))).flatten := by
  induction m with
  | zero => simp [sysAfter]
  | succ m ih => simp [sysAfter, ih, List.range_succ]

theorem shrinkingWorld_ok (i : Nat) : IterOk shrinkingWorld shrinkingScript i := by
  match i with
  | 0 => exact ⟨⟨_, rfl⟩, ⟨_, rfl, by decide, by decide⟩⟩
  | 1 => exact ⟨⟨_, rfl⟩, ⟨_, rfl, by decide, by decide⟩⟩
  | n + 2 =>
    exact ⟨⟨_, rfl⟩, ⟨_, rfl,
      (by decide : Atoi (Header.Get [(ascii "X-Text-Size", [ascii "3"])] (ascii "X-Text-Size"))
        = .ok 3), Or.inl ⟨by decide, rfl⟩⟩⟩

theorem growingWorld_ok (i : Nat) : IterOk growingWorld growingScript i := by
  match i with
  | 0 => exact ⟨⟨_, rfl⟩, ⟨_, rfl, by decide, by decide⟩⟩
  | 1 => exact ⟨⟨_, rfl⟩, ⟨_, rfl, by decide, by decide⟩⟩
  | n + 2 =>
    exact ⟨⟨_, rfl⟩, ⟨_, rfl,
      (by decide : Atoi (Header.Get [(ascii "X-Text-Size", [ascii "6"])] (ascii "X-Text-Size"))
        = .ok 6), Or.inl ⟨by decide, rfl⟩⟩⟩

/-! ## Lemmas: the crumb header -/

theorem canonical_authorization :
    CanonicalMIMEHeaderKey (ascii "Authorization") = ascii "Authorization" := by decide

theorem authorize_carries (r : Request) (cred : Credentials) (hr : r.header = [])
    (ht : cred.Crumb.Crumb ≠ []) (hf : cred.Crumb.CrumbRequestField ≠ [])
    (hauth : CanonicalMIMEHeaderKey cred.Crumb.CrumbRequestField ≠ ascii "Authorization") :
    Carries (authorize r cred) cred.Crumb.CrumbRequestField cred.Crumb.Crumb := by
  simp [Carries, authorize, SetBasicAuth, Header.Set, hr, ht, hf, GoMap.set, GoMap.get, hauth,
    canonical_authorization]

theorem Extends.refl (P : Request → Prop) (sys : Sys) : Extends P sys sys :=
  ⟨[], by simp, by simp⟩

theorem Extends.trans {P : Request → Prop} {a b c : Sys} (h1 : Extends P a b)
    (h2 : Extends P b c) : Extends P a c := by
  obtain ⟨m1, e1, p1⟩ := h1
  obtain ⟨m2, e2, p2⟩ := h2
  refine ⟨m1 ++ m2, by rw [e2, e1, List.append_assoc], ?_⟩
  intro r hr
  rcases List.mem_append.1 hr with h | h
  · exact p1 r h
  · exact p2 r h

theorem DoRequest_extends {β : Type} (P : Request → Prop) (sys : Sys) (req : Request)
    (cred : Credentials) (sent : Except Error (Response β)) (hP : P (authorize req cred)) :
    Extends P sys (DoRequest sys req cred sent).1 := by
  refine ⟨[authorize req cred], ?_, by simpa using hP⟩
  cases sent <;> simp [DoRequest]

theorem GetQueueInfo_extends (P : Request → Prop) (sys : Sys) (cred : Credentials)
    (location : GoString) (reply : Reply QueueInfo)
    (hP : ∀ r : Request, r.header = [] → P (authorize r cred)) :
    Extends P sys (GetQueueInfo sys cred location reply).1 := by
  have hd := DoRequest_extends P sys ⟨ascii "GET", location ++ ascii "/api/json", []⟩ cred
    reply.send (hP _ rfl)
  unfold GetQueueInfo
  split
  · exact Extends.refl P sys
  · split
    · rename_i h; rw [h] at hd; exact hd
    · rename_i h; rw [h] at hd
      split <;> exact hd

theorem GetBuildInfo_extends (P : Request → Prop) (sys : Sys) (host : GoString)
    (cred : Credentials) (job : GoString) (bn : Int) (reply : Reply BuildInfo)
    (hP : ∀ r : Request, r.header = [] → P (authorize r cred)) :
    Extends P sys (GetBuildInfo sys host cred job bn reply).1 := by
  have hd := DoRequest_extends P sys ⟨ascii "GET", buildInfoURL host job bn, []⟩ cred
    reply.send (hP _ rfl)
  unfold GetBuildInfo
  split
  · exact Extends.refl P sys
  · split
    · rename_i h; rw [h] at hd; exact hd
    · rename_i h; rw [h] at hd
      split <;> exact hd

theorem GetBuildLog_extends (P : Request → Prop) (sys : Sys) (host : GoString)
    (cred : Credentials) (job : GoString) (bn start : Int) (reply : Reply GoString)
    (hP : ∀ r : Request, r.header = [] → P (authorize r cred)) :
    Extends P sys (GetBuildLog sys host cred job bn start reply).1 := by
  have hd := DoRequest_extends P sys ⟨ascii "GET", logURL host job bn start, []⟩ cred
    reply.send (hP _ rfl)
  unfold GetBuildLog
  split
  · exact Extends.refl P sys
  · split
    · rename_i h; rw [h] at hd; exact hd
    · rename_i sys1 resp h
      rw [h] at hd
      have hd2 : ∀ body : GoString, Extends P sys
          (if TrimSpaceIsEmpty body then sys1
            else { sys1 with stdout := sys1.stdout ++ body ++ [10] }) := by
        intro body
        split
        · exact hd
        · exact hd
      split
      · exact hd
      · simp only
        split
        · exact hd2 _
        · split
          · split
            · exact hd2 _
            · exact hd2 _
          · exact hd2 _

theorem TriggerBuild_extends (P : Request → Prop) (sys : Sys) (host : GoString)
    (cred : Credentials) (job : GoString) (args : GoMap GoString) (w : World)
    (hP : ∀ r : Request, r.header = [] → P (authorize r cred)) :
    Extends P sys (TriggerBuild sys host cred job args w).1 := by
  have hd := DoRequest_extends P sys
    ⟨ascii "POST", host ++ ascii "/job/" ++ job ++ ascii "/buildWithParameters?"
      ++ buildParams args, []⟩ cred w.buildWithParameters.send (hP _ rfl)
  unfold TriggerBuild
  simp only
  split
  · exact Extends.refl P sys
  · split
    · rename_i h; rw [h] at hd; exact hd
    · rename_i sys1 resp h
      rw [h] at hd
      have hq := GetQueueInfo_extends P sys1 cred (Header.Get resp.header (ascii "Location"))
        w.queueItem hP
      split
      · rename_i h2; rw [h2] at hq; exact hd.trans hq
      · rename_i h2; rw [h2] at hq; exact hd.trans hq

theorem pollLoop_extends (P : Request → Prop) (w : World) (host : GoString)
    (cred : Credentials) (job : GoString) (bn : Int)
    (hP : ∀ r : Request, r.header = [] → P (authorize r cred)) (fuel : Nat) :
    ∀ (i : Nat) (ts : Int) (sys : Sys),
      Extends P sys (pollLoop w host cred job bn fuel i ts sys).sys := by
  induction fuel with
  | zero => intro i ts sys; exact Extends.refl P sys
  | succ fuel ih =>
    intro i ts sys
    have h1 := GetBuildInfo_extends P sys host cred job bn (w.buildInfo i) hP
    unfold pollLoop
    split
    · rename_i h; rw [h] at h1; exact h1
    · rename_i sys1 b h
      rw [h] at h1
      have h2 := GetBuildLog_extends P sys1 host cred job bn ts (w.progressiveText i) hP
      split
      · rename_i h3; rw [h3] at h2; exact h1.trans h2
      · rename_i h3; rw [h3] at h2
        split
        · exact h1.trans h2
        · exact (h1.trans h2).trans (ih _ _ _)

/-- The request `GetCrumb` sends: the credentials hold no crumb yet. -/
theorem GetCrumb_response (sys : Sys) (host user token : GoString) (h : Header) (c : Crumb) :
    GetCrumb sys host ⟨user, token, ⟨[], []⟩⟩ (.response ⟨h, .ok c⟩) =
      (⟨sys.requests ++ [authorize ⟨ascii "GET", host ++ ascii "/crumbIssuer/api/json", []⟩
        ⟨user, token, ⟨[], []⟩⟩], sys.stdout⟩, .ok c) := by
  simp [GetCrumb, Reply.newRequest, Reply.send, DoRequest]

/-- Once the crumb issuer has answered, the requests of the run are the crumb
request followed by requests that satisfy what every request authorised with
the crumb satisfies; the run makes no request when the arguments do not
parse. -/
theorem main_extends_crumb (P : Request → Prop) (inp : Input) (w : World) (fuel : Nat)
    (h : Header) (c : Crumb) (hcrumb : w.crumbIssuer = .response ⟨h, .ok c⟩)
    (hP : ∀ r : Request, r.header = [] →
      P (authorize r ⟨inp.JENKINS_USERNAME, inp.JENKINS_API_TOKEN, c⟩)) :
    ((∃ p, parseArgs inp.args = .error p) ∧ (main inp w fuel).sys.requests = []) ∨
    ((∃ m, parseArgs inp.args = .ok m) ∧
      Extends P ⟨[authorize ⟨ascii "GET",
        inp.JENKINS_HOST_URL ++ ascii "/crumbIssuer/api/json", []⟩
        ⟨inp.JENKINS_USERNAME, inp.JENKINS_API_TOKEN, ⟨[], []⟩⟩], []⟩ (main inp w fuel).sys) := by
  cases hp : parseArgs inp.args with
  | error p =>
    left
    exact ⟨⟨p, rfl⟩, by rw [main_of_parse_error inp w fuel p hp]⟩
  | ok m =>
    right
    refine ⟨⟨m, rfl⟩, ?_⟩
    have htb := TriggerBuild_extends P ⟨[] ++ [authorize ⟨ascii "GET",
        inp.JENKINS_HOST_URL ++ ascii "/crumbIssuer/api/json", []⟩
        ⟨inp.JENKINS_USERNAME, inp.JENKINS_API_TOKEN, ⟨[], []⟩⟩], []⟩ inp.JENKINS_HOST_URL
      ⟨inp.JENKINS_USERNAME, inp.JENKINS_API_TOKEN, c⟩ inp.job m w hP
    unfold main runToPoll
    simp only [hp, hcrumb, GetCrumb_response]
    split
    · rename_i run hrun
      split at hrun
      · rename_i sys2 p h2
        cases hrun
        rw [h2] at htb
        exact htb
      · rename_i sys2 bnum h2
        rw [h2] at htb
        have hpl := pollLoop_extends P w inp.JENKINS_HOST_URL
          ⟨inp.JENKINS_USERNAME, inp.JENKINS_API_TOKEN, c⟩ inp.job bnum hP fuel 0 0 sys2
        split at hrun
        · cases hrun; exact htb.trans hpl
        · cases hrun; exact htb.trans hpl
        · cases hrun
    · rename_i e he
      split at he
      · cases he
      · rename_i sys2 bnum h2
        rw [h2] at htb
        have hpl := pollLoop_extends P w inp.JENKINS_HOST_URL
          ⟨inp.JENKINS_USERNAME, inp.JENKINS_API_TOKEN, c⟩ inp.job bnum hP fuel 0 0 sys2
        split at he
        · cases he
        · cases he
        · cases he
          simp only [reportResult]
          split <;> exact htb.trans hpl

/-! ## Lemmas: query escaping -/

set_option maxRecDepth 100000 in
theorem hex_roundtrip : ∀ c : Byte, ishex (upperhex (c.val / 16)) = true ∧
    ishex (upperhex (c.val % 16)) = true ∧
    (Fin.ofNat (unhex (upperhex (c.val / 16)) * 16 + unhex (upperhex (c.val % 16))) : Byte)
      = c := by
  decide

set_option maxRecDepth 100000 in
theorem unreserved_plain : ∀ c : Byte, shouldEscape c = false →
    c ≠ 37 ∧ c ≠ 43 ∧ c ≠ 38 ∧ c ≠ 59 ∧ c ≠ 61 := by
  decide

set_option maxRecDepth 100000 in
theorem upperhex_plain : ∀ c : Byte,
    upperhex (c.val / 16) ≠ 38 ∧ upperhex (c.val / 16) ≠ 59 ∧ upperhex (c.val / 16) ≠ 61 ∧
    upperhex (c.val % 16) ≠ 38 ∧ upperhex (c.val % 16) ≠ 59 ∧ upperhex (c.val % 16) ≠ 61 := by
  decide

theorem QueryEscape_cons (c : Byte) (rest : GoString) :
    QueryEscape (c :: rest) =
      if c = 32 then 43 :: QueryEscape rest
      else if shouldEscape c then
        37 :: upperhex (c.val / 16) :: upperhex (c.val % 16) :: QueryEscape rest
      else c :: QueryEscape rest := rfl

/-- An escaped string holds no `&`, `;` or `=`. -/
theorem QueryEscape_plain (s : GoString) :
    ∀ x ∈ QueryEscape s, x ≠ 38 ∧ x ≠ 59 ∧ x ≠ 61 := by
  induction s with
  | nil => intro x hx; simp [QueryEscape] at hx
  | cons c rest ih =>
    intro x hx
    rw [QueryEscape_cons] at hx
    have hu := upperhex_plain c
    split at hx
    · rcases List.mem_cons.1 hx with e | e
      · subst e; decide
      · exact ih x e
    · split at hx
      · rcases List.mem_cons.1 hx with e | e
        · subst e; decide
        · rcases List.mem_cons.1 e with e | e
          · subst e; exact ⟨hu.1, hu.2.1, hu.2.2.1⟩
          · rcases List.mem_cons.1 e with e | e
            · subst e; exact ⟨hu.2.2.2.1, hu.2.2.2.2.1, hu.2.2.2.2.2⟩
            · exact ih x e
      · rename_i hs
        rcases List.mem_cons.1 hx with e | e
        · subst e
          have := unreserved_plain x (by simpa using hs)
          exact ⟨this.2.2.1, this.2.2.2.1, this.2.2.2.2⟩
        · exact ih x e

theorem unescapeCheck_plain (c : Byte) (rest : GoString) (h : c ≠ 37) :
    unescapeCheck (c :: rest) = unescapeCheck rest := by
  rcases rest with _ | ⟨a, _ | ⟨b, r⟩⟩ <;> simp [unescapeCheck, h]

theorem unescapeCheck_hex (a b : Byte) (rest : GoString) (ha : ishex a = true)
    (hb : ishex b = true) : unescapeCheck (37 :: a :: b :: rest) = unescapeCheck rest := by
  simp [unescapeCheck, ha, hb]

theorem unescapeDecode_plain (c : Byte) (rest : GoString) (h : c ≠ 37) :
    unescapeDecode (c :: rest) =
      if c = 43 then 32 :: unescapeDecode rest else c :: unescapeDecode rest := by
  rcases rest with _ | ⟨a, _ | ⟨b, r⟩⟩ <;> simp [unescapeDecode, h]

theorem unescapeDecode_hex (a b : Byte) (rest : GoString) :
    unescapeDecode (37 :: a :: b :: rest) =
      Fin.ofNat (unhex a * 16 + unhex b) :: unescapeDecode rest := by
  simp [unescapeDecode]

theorem unescapeCheck_QueryEscape (s : GoString) : unescapeCheck (QueryEscape s) = none := by
  induction s with
  | nil => rfl
  | cons c rest ih =>
    rw [QueryEscape_cons]
    have hh := hex_roundtrip c
    split
    · rw [unescapeCheck_plain _ _ (by decide), ih]
    · split
      · rw [unescapeCheck_hex _ _ _ hh.1 hh.2.1, ih]
      · rename_i hs
        have := unreserved_plain c (by simpa using hs)
        rw [unescapeCheck_plain _ _ this.1, ih]

theorem unescapeDecode_QueryEscape (s : GoString) : unescapeDecode (QueryEscape s) = s := by
  induction s with
  | nil => rfl
  | cons c rest ih =>
    rw [QueryEscape_cons]
    have hh := hex_roundtrip c
    split
    · rename_i h32
      rw [unescapeDecode_plain _ _ (by decide), if_pos rfl, ih, h32]
    · split
      · rw [unescapeDecode_hex, ih, hh.2.2]
      · rename_i hs
        have := unreserved_plain c (by simpa using hs)
        rw [unescapeDecode_plain _ _ this.1, if_neg this.2.1, ih]

theorem QueryUnescape_QueryEscape (s : GoString) : QueryUnescape (QueryEscape s) = .ok s := by
  simp [QueryUnescape, unescapeCheck_QueryEscape, unescapeDecode_QueryEscape]

theorem QueryEscape_injective (a b : GoString) (h : QueryEscape a = QueryEscape b) : a = b := by
  have := congrArg unescapeDecode h
  rwa [unescapeDecode_QueryEscape, unescapeDecode_QueryEscape] at this

theorem queryPair_plain (k v : GoString) :
    (38 : Byte) ∉ queryPair k v ∧ (59 : Byte) ∉ queryPair k v ∧ queryPair k v ≠ [] := by
  refine ⟨?_, ?_, by simp [queryPair]⟩
  · intro h
    rcases List.mem_append.1 h with e | e
    · exact (QueryEscape_plain k _ e).1 rfl
    · rcases List.mem_cons.1 e with e | e
      · revert e; decide
      · exact (QueryEscape_plain v _ e).1 rfl
  · intro h
    rcases List.mem_append.1 h with e | e
    · exact (QueryEscape_plain k _ e).2.1 rfl
    · rcases List.mem_cons.1 e with e | e
      · revert e; decide
      · exact (QueryEscape_plain v _ e).2.1 rfl

theorem Cut_queryPair (k v : GoString) :
    Cut (queryPair k v) 61 = (QueryEscape k, QueryEscape v, true) :=
  Cut_append (QueryEscape k) (QueryEscape v) 61 (fun h => (QueryEscape_plain k _ h).2.2 rfl)

/-! ## Lemmas: joining and splitting -/

theorem joinAmp_cons_cons (p q : GoString) (qs : List GoString) :
    joinAmp (p :: q :: qs) = p ++ 38 :: joinAmp (q :: qs) := by
  simp [joinAmp]

theorem Split_of_not_mem (p : GoString) (sep : Byte) (h : sep ∉ p) : Split p sep = [p] := by
  induction p with
  | nil => rfl
  | cons c rest ih =>
    have hc : c ≠ sep := fun e => h (by simp [e])
    have hr : sep ∉ rest := fun e => h (by simp [e])
    simp [Split, hc, ih hr]

theorem Split_append_sep (p r : GoString) (sep : Byte) (h : sep ∉ p) :
    Split (p ++ sep :: r) sep = p :: Split r sep := by
  induction p with
  | nil => simp [Split]
  | cons c rest ih =>
    have hc : c ≠ sep := fun e => h (by simp [e])
    have hr : sep ∉ rest := fun e => h (by simp [e])
    simp [Split, hc, ih hr]

theorem Split_joinAmp (ps : List GoString) (hne : ps ≠ [])
    (h : ∀ p ∈ ps, (38 : Byte) ∉ p) : Split (joinAmp ps) 38 = ps := by
  induction ps with
  | nil => exact absurd rfl hne
  | cons p rest ih =>
    cases rest with
    | nil => simpa [joinAmp] using Split_of_not_mem p 38 (h p (by simp))
    | cons q qs =>
      rw [joinAmp_cons_cons, Split_append_sep p _ 38 (h p (by simp)),
        ih (by simp) (fun x hx => h x (by simp [hx]))]

/-- The buffer of `Encode` after the keys `ks`, when each key writes the
non-empty piece `f k`. -/
theorem foldl_joinAmp (f : GoString → GoString) (hf : ∀ k, f k ≠ []) (ks : List GoString) :
    ∀ buf : GoString,
      ks.foldl (fun buf k => (if 0 < buf.length then buf ++ [38] else buf) ++ f k) buf =
        if buf = [] then joinAmp (ks.map f)
        else buf ++ ((ks.map f).map (fun q => 38 :: q)).flatten := by
  induction ks with
  | nil => intro buf; by_cases hb : buf = [] <;> simp [hb, joinAmp]
  | cons k rest ih =>
    intro buf
    rw [List.foldl_cons, ih]
    have hne : (if 0 < buf.length then buf ++ [38] else buf) ++ f k ≠ [] := by
      simp [hf k]
    rw [if_neg hne]
    by_cases hb : buf = []
    · subst hb
      simp [joinAmp]
    · have hl : 0 < buf.length := List.length_pos.2 hb
      simp [hb, hl]

theorem foldl_congr_mem {α β : Type} (g g2 : β → α → β) (l : List α)
    (h : ∀ b, ∀ a ∈ l, g b a = g2 b a) : ∀ b, l.foldl g b = l.foldl g2 b := by
  induction l with
  | nil => intro b; rfl
  | cons a rest ih =>
    intro b
    rw [List.foldl_cons, List.foldl_cons, h b a (by simp)]
    exact ih (fun b x hx => h b x (by simp [hx])) _

/-! ## Lemmas: the query string of TriggerBuild -/

theorem GoMap.get_map_singleton (kvs : GoMap GoString) (k : GoString) :
    GoMap.get (kvs.map (fun kv => (kv.1, [kv.2]))) k =
      (GoMap.get kvs k).map (fun v => [v]) := by
  induction kvs with
  | nil => rfl
  | cons p rest ih =>
    obtain ⟨k1, v1⟩ := p
    by_cases hk : k1 = k <;> simp [GoMap.get, hk, ih]

theorem GoMap.get_map_keys {ν : Type} (g : GoString → ν) (ks : List GoString) (k : GoString) :
    GoMap.get (ks.map (fun x => (x, g x))) k = if k ∈ ks then some (g k) else none := by
  induction ks with
  | nil => rfl
  | cons x rest ih =>
    by_cases hk : x = k
    · subst hk; simp [GoMap.get]
    · have hk2 : ¬ k = x := fun e => hk e.symm
      simp [GoMap.get, hk, hk2, ih]

theorem GoMap.get_of_mem_keys {ν : Type} (m : GoMap ν) (k : GoString)
    (h : k ∈ GoMap.keys m) : ∃ v, GoMap.get m k = some v := by
  induction m with
  | nil => simp [GoMap.keys] at h
  | cons p rest ih =>
    obtain ⟨k1, v1⟩ := p
    by_cases hk : k1 = k
    · exact ⟨v1, by simp [GoMap.get, hk]⟩
    · have : k ∈ GoMap.keys rest := by
        simp only [GoMap.keys, List.map_cons, List.mem_cons] at h
        rcases h with e | e
        · exact absurd e.symm hk
        · exact e
      obtain ⟨v, hv⟩ := ih this
      exact ⟨v, by simp [GoMap.get, hk, hv]⟩

/-- One `Add` per entry of a map with unique keys gives every key the list of
its one value. -/
theorem foldl_Add (args : GoMap GoString) :
    ∀ acc : Values, (GoMap.keys acc ++ GoMap.keys args).Nodup →
      args.foldl (fun params kv => Values.Add params kv.1 kv.2) acc =
        acc ++ args.map (fun kv => (kv.1, [kv.2])) := by
  induction args with
  | nil => intro acc _; simp
  | cons p rest ih =>
    obtain ⟨k, v⟩ := p
    intro acc hn
    have hk : k ∉ GoMap.keys acc := by
      intro hm
      exact (List.nodup_append.1 hn).2.2 hm (by simp [GoMap.keys])
    have hadd : Values.Add acc k v = acc ++ [(k, [v])] := by
      simp [Values.Add, GoMap.get_eq_none acc k hk, GoMap.set_of_not_mem acc k _ hk]
    have hn2 : (GoMap.keys (acc ++ [(k, [v])]) ++ GoMap.keys rest).Nodup := by
      simpa [GoMap.keys, List.append_assoc] using hn
    rw [List.foldl_cons, hadd, ih _ hn2]
    simp

theorem sortedKeys_perm (args : GoMap GoString) : (sortedKeys args).Perm (GoMap.keys args) :=
  List.perm_insertionSort _ _

theorem mem_sortedKeys (args : GoMap GoString) (k : GoString) :
    k ∈ sortedKeys args ↔ k ∈ GoMap.keys args :=
  (sortedKeys_perm args).mem_iff

theorem sortedKeys_nodup (args : GoMap GoString) (h : (GoMap.keys args).Nodup) :
    (sortedKeys args).Nodup :=
  (sortedKeys_perm args).nodup_iff.2 h

/-- The query string `TriggerBuild` builds: the pairs of the keys in sorted
order, joined by `&`. -/
theorem buildParams_eq (args : GoMap GoString) (hkeys : (GoMap.keys args).Nodup) :
    buildParams args =
      joinAmp ((sortedKeys args).map (fun k => queryPair k ((GoMap.get args k).getD []))) := by
  have hfold := foldl_Add args [] (by simpa [GoMap.keys] using hkeys)
  simp only [List.nil_append] at hfold
  have hkmap : GoMap.keys (args.map (fun kv => (kv.1, [kv.2]))) = GoMap.keys args := by
    simp [GoMap.keys, Function.comp_def]
  unfold buildParams
  rw [hfold]
  unfold Values.Encode
  simp only [hkmap]
  have hstep : ∀ (buf : GoString), ∀ k ∈ (GoMap.keys args).insertionSort (· ≤ ·),
      (((GoMap.get (args.map (fun kv => (kv.1, [kv.2]))) k).getD []).foldl
        (fun buf val => (if 0 < buf.length then buf ++ [38] else buf) ++ QueryEscape k ++ [61]
          ++ QueryEscape val) buf) =
      (if 0 < buf.length then buf ++ [38] else buf)
        ++ queryPair k ((GoMap.get args k).getD []) := by
    intro buf k hk
    obtain ⟨v, hv⟩ := GoMap.get_of_mem_keys args k ((mem_sortedKeys args k).1 hk)
    rw [GoMap.get_map_singleton, hv]
    simp [queryPair]
  rw [foldl_congr_mem _ _ _ hstep]
  rw [foldl_joinAmp (fun k => queryPair k ((GoMap.get args k).getD []))
    (fun k => (queryPair_plain k _).2.2)]
  simp [sortedKeys]

theorem parseQuery_nil (fuel : Nat) (m : Values) (err : Option Error) :
    parseQuery fuel m err [] = (m, err) := by
  cases fuel <;> simp [parseQuery]

theorem parseQuery_pair (fuel : Nat) (m : Values) (k v rest : GoString)
    (hcut : Cut (queryPair k v ++ rest) 38 = (queryPair k v, rest.tail, !rest.isEmpty)) :
    parseQuery (fuel + 1) m none (queryPair k v ++ rest) =
      parseQuery fuel (Values.Add m k v) none rest.tail := by
  have hp := queryPair_plain k v
  have hne : queryPair k v ++ rest ≠ [] := by simp [hp.2.2]
  rw [parseQuery]
  simp only [hne, if_false, hcut, hp.2.1, hp.2.2, Cut_queryPair, QueryUnescape_QueryEscape]

/-- Parsing the joined pairs adds every pair to the map, in order. -/
theorem parseQuery_joinAmp (kvs : List (GoString × GoString)) :
    ∀ (m : Values) (fuel : Nat),
      (joinAmp (kvs.map (fun kv => queryPair kv.1 kv.2))).length ≤ fuel →
      parseQuery fuel m none (joinAmp (kvs.map (fun kv => queryPair kv.1 kv.2))) =
        (kvs.foldl (fun params kv => Values.Add params kv.1 kv.2) m, none) := by
  induction kvs with
  | nil => intro m fuel _; simp [joinAmp, parseQuery_nil]
  | cons p rest ih =>
    obtain ⟨k, v⟩ := p
    intro m fuel hlen
    have hp := queryPair_plain k v
    cases rest with
    | nil =>
      have hq : joinAmp ([(k, v)].map (fun kv => queryPair kv.1 kv.2)) = queryPair k v ++ [] := by
        simp [joinAmp]
      rw [hq] at hlen ⊢
      obtain ⟨f, rfl⟩ : ∃ f, fuel = f + 1 := by
        have : 0 < (queryPair k v ++ []).length := by
          simp [queryPair]
        exact ⟨fuel - 1, by omega⟩
      rw [parseQuery_pair f m k v [] (by
        simpa using Cut_of_not_mem (queryPair k v) 38 hp.1)]
      simp [parseQuery_nil]
    | cons q qs =>
      have hq : joinAmp (((k, v) :: q :: qs).map (fun kv => queryPair kv.1 kv.2)) =
          queryPair k v ++ 38 :: joinAmp ((q :: qs).map (fun kv => queryPair kv.1 kv.2)) := by
        simp only [List.map_cons]
        exact joinAmp_cons_cons _ _ _
      rw [hq] at hlen ⊢
      obtain ⟨f, rfl⟩ : ∃ f, fuel = f + 1 := by
        simp only [List.length_append, List.length_cons] at hlen
        exact ⟨fuel - 1, by omega⟩
      rw [parseQuery_pair f m k v _ (by
        simpa using Cut_append (queryPair k v) _ 38 hp.1)]
      simp only [List.tail_cons, List.foldl_cons]
      apply ih
      simp only [List.length_append, List.length_cons] at hlen
      omega

theorem filter_eq_of_nodup (l : List GoString) (k : GoString) (hn : l.Nodup) (hk : k ∈ l) :
    l.filter (fun x => decide (x = k)) = [k] := by
  induction l with
  | nil => simp at hk
  | cons x rest ih =>
    simp only [List.nodup_cons] at hn
    by_cases hx : x = k
    · subst hx
      have : rest.filter (fun y => decide (y = x)) = [] := by
        rw [List.filter_eq_nil_iff]
        intro y hy
        simp only [decide_eq_true_eq]
        intro e
        exact hn.1 (e ▸ hy)
      simp [List.filter_cons, this]
    · have hk2 : k ∈ rest := by
        rcases List.mem_cons.1 hk with e | e
        · exact absurd e.symm hx
        · exact e
      simp [List.filter_cons, hx, ih hn.2 hk2]

theorem GoMap.get_perm {ν : Type} (m m2 : GoMap ν) (hn : (GoMap.keys m).Nodup)
    (hp : m2.Perm m) (k : GoString) : GoMap.get m2 k = GoMap.get m k := by
  have hn2 : (GoMap.keys m2).Nodup := (hp.map Prod.fst).nodup_iff.2 hn
  cases h : GoMap.get m k with
  | some v =>
    exact GoMap.get_of_mem m2 k v hn2 (hp.mem_iff.2 (GoMap.mem_of_get m k v h))
  | none =>
    cases h2 : GoMap.get m2 k with
    | none => rfl
    | some v =>
      have := GoMap.get_of_mem m k v hn (hp.mem_iff.1 (GoMap.mem_of_get m2 k v h2))
      rw [h] at this
      cases this

/-- The order in which `range` visits the entries of the map does not show
in the query string. -/
theorem buildParams_perm (args args2 : GoMap GoString) (hkeys : (GoMap.keys args).Nodup)
    (hp : args2.Perm args) : buildParams args2 = buildParams args := by
  have hk2 : (GoMap.keys args2).Nodup := (hp.map Prod.fst).nodup_iff.2 hkeys
  have hs : sortedKeys args2 = sortedKeys args := by
    apply List.eq_of_perm_of_sorted (r := (· ≤ ·))
    · exact (sortedKeys_perm args2).trans ((hp.map Prod.fst).trans (sortedKeys_perm args).symm)
    · exact List.sorted_insertionSort _ _
    · exact List.sorted_insertionSort _ _
  rw [buildParams_eq args hkeys, buildParams_eq args2 hk2, hs]
  apply congrArg
  apply List.map_congr_left
  intro k _
  rw [GoMap.get_perm args args2 hkeys hp k]

/-! ## Checks of the library models on known values -/

theorem check_base64 : base64 (ascii "user:token") = ascii "dXNlcjp0b2tlbg==" := by decide

theorem check_QueryEscape :
    QueryEscape (ascii "a b&c=d/~") = ascii "a+b%26c%3Dd%2F~" := by decide

theorem check_Encode :
    Values.Encode [(ascii "b", [ascii "x y"]), (ascii "a", [ascii "1", ascii "&"])]
      = ascii "a=1&a=%26&b=x+y" := by decide

theorem check_ParseQuery :
    ParseQuery (ascii "a=1&b=%20+&&a=3") =
      ([(ascii "a", [ascii "1", ascii "3"]), (ascii "b", [ascii "  "])], none) := by decide

theorem check_buildParams :
    buildParams [(ascii "b c", ascii "x&y=z"), ([], []), (ascii "a", ascii "100%")]
      = ascii "=&a=100%25&b+c=x%26y%3Dz" := by decide

theorem check_Atoi :
    Atoi (ascii "-12") = .ok (-12) ∧ Atoi (ascii "+7") = .ok 7 ∧
    Atoi (ascii "9223372036854775807") = .ok 9223372036854775807 ∧
    Atoi (ascii "-9223372036854775808") = .ok (-9223372036854775808) ∧
    Atoi [] = .error (.badNumber (ascii "Atoi") []) ∧
    Atoi (ascii "12a") = .error (.badNumber (ascii "Atoi") (ascii "12a")) := by decide

theorem check_ParseBool :
    ParseBool (ascii "true") = .ok true ∧ ParseBool (ascii "F") = .ok false ∧
    ParseBool (ascii "yes") = .error (.badNumber (ascii "ParseBool") (ascii "yes")) := by
  decide

theorem check_Itoa : Itoa (-120) = ascii "-120" ∧ Itoa 0 = ascii "0" := by decide

theorem check_CanonicalMIMEHeaderKey :
    CanonicalMIMEHeaderKey (ascii "x-more-DATA") = ascii "X-More-Data" ∧
    CanonicalMIMEHeaderKey (ascii "bad key") = ascii "bad key" := by decide

theorem check_TrimSpaceIsEmpty :
    TrimSpaceIsEmpty [0xE2, 0x80, 0x83, 10, 0xC2, 0xA0, 32, 9] = true ∧
    TrimSpaceIsEmpty [] = true ∧
    TrimSpaceIsEmpty [0xE2, 0x80, 0x8B] = false ∧
    TrimSpaceIsEmpty (ascii " a ") = false := by decide

theorem check_SplitN :
    SplitN (ascii "a=b=c") 61 2 = [ascii "a", ascii "b=c"] ∧
    SplitN (ascii "abc") 61 2 = [ascii "abc"] ∧ SplitN [] 61 2 = [[]] ∧
    SplitN (ascii "=") 61 2 = [[], []] := by decide

theorem check_main :
    main sampleInput (sampleWorld (ascii "SUCCESS") (ascii "log")) 1 =
      ⟨⟨[⟨ascii "GET", ascii "http://ci/crumbIssuer/api/json",
            [(ascii "Authorization", [ascii "Basic dXNlcjp0b2tlbg=="])]⟩,
          ⟨ascii "POST", ascii "http://ci/job/job/buildWithParameters?branch=main",
            [(ascii "Jenkins-Crumb", [ascii "abc"]),
             (ascii "Authorization", [ascii "Basic dXNlcjp0b2tlbg=="])]⟩,
          ⟨ascii "GET", ascii "http://ci/queue/item/7/api/json",
            [(ascii "Jenkins-Crumb", [ascii "abc"]),
             (ascii "Authorization", [ascii "Basic dXNlcjp0b2tlbg=="])]⟩,
          ⟨ascii "GET", ascii "http://ci/job/job/12/api/json",
            [(ascii "Jenkins-Crumb", [ascii "abc"]),
             (ascii "Authorization", [ascii "Basic dXNlcjp0b2tlbg=="])]⟩,
          ⟨ascii "GET", ascii "http://ci/job/job/12/logText/progressiveText?start=0",
            [(ascii "Jenkins-Crumb", [ascii "abc"]),
             (ascii "Authorization", [ascii "Basic dXNlcjp0b2tlbg=="])]⟩],
        ascii "log\n"⟩, .returned⟩ := by decide

/-! ## Claims -/

/-- C8: when every positional argument contains `=` and the texts before the
first `=` are pairwise distinct, the parsed map has exactly one entry per
argument: its key is the text before the first `=` of the argument, its value
all the text after it, and the map has no other entry. -/
theorem parseArgs_one_entry_per_argument (args : List GoString)
    (heq : ∀ a ∈ args, (61 : Byte) ∈ a) (hkeys : (args.map argKey).Nodup) :
    ∃ m, parseArgs args = .ok m ∧ m.length = args.length ∧ (GoMap.keys m).Nodup ∧
      (∀ a ∈ args, a = argKey a ++ 61 :: argValue a ∧ (61 : Byte) ∉ argKey a ∧
        GoMap.get m (argKey a) = some (argValue a)) ∧
      (∀ k v, (61 : Byte) ∉ k → k ++ 61 :: v ∈ args → GoMap.get m k = some v) ∧
      (∀ k v, GoMap.get m k = some v → (61 : Byte) ∉ k ∧ k ++ 61 :: v ∈ args) := by
  have hok := parseArgsFrom_ok args [] 0 heq (by simpa [GoMap.keys] using hkeys)
  simp only [List.nil_append] at hok
  have hnodup : (GoMap.keys (args.map (fun a => (argKey a, argValue a)))).Nodup := by
    simpa [GoMap.keys, Function.comp_def] using hkeys
  have hget : ∀ a ∈ args,
      GoMap.get (args.map (fun a => (argKey a, argValue a))) (argKey a) = some (argValue a) :=
    fun a ha => GoMap.get_of_mem _ _ _ hnodup (List.mem_map.2 ⟨a, ha, rfl⟩)
  refine ⟨_, hok, by simp, hnodup, ?_, ?_, ?_⟩
  · intro a ha
    exact ⟨arg_split a (heq a ha), argKey_not_mem a, hget a ha⟩
  · intro k v hk hmem
    have := hget _ hmem
    rwa [(argKey_append k v hk).1, (argKey_append k v hk).2] at this
  · intro k v hg
    obtain ⟨a, ha, he⟩ := List.mem_map.1 (GoMap.mem_of_get _ _ _ hg)
    cases he
    exact ⟨argKey_not_mem a, by rw [← arg_split a (heq a ha)]; exact ha⟩

theorem parseArgs_one_entry_per_argument_witness :
    ∃ m, parseArgs [ascii "a=b=c", ascii "=", ascii "x="] = .ok m ∧
      m.length = [ascii "a=b=c", ascii "=", ascii "x="].length ∧ (GoMap.keys m).Nodup ∧
      (∀ a ∈ [ascii "a=b=c", ascii "=", ascii "x="],
        a = argKey a ++ 61 :: argValue a ∧ (61 : Byte) ∉ argKey a ∧
        GoMap.get m (argKey a) = some (argValue a)) ∧
      (∀ k v, (61 : Byte) ∉ k → k ++ 61 :: v ∈ [ascii "a=b=c", ascii "=", ascii "x="] →
        GoMap.get m k = some v) ∧
      (∀ k v, GoMap.get m k = some v →
        (61 : Byte) ∉ k ∧ k ++ 61 :: v ∈ [ascii "a=b=c", ascii "=", ascii "x="]) :=
  parseArgs_one_entry_per_argument [ascii "a=b=c", ascii "=", ascii "x="]
    (by decide) (by decide)

/-- C9: `main` panics with an index-out-of-range failure exactly when some
positional argument contains no `=`; the panic is the one of index 1 in a
slice of length 1, it is raised at the first such argument, and no request
has been made by then. -/
theorem main_index_out_of_range_iff (inp : Input) (w : World) (fuel : Nat) :
    ((∃ idx len, (main inp w fuel).exit = .panicked (.indexOutOfRange idx len)) ↔
      ∃ a ∈ inp.args, (61 : Byte) ∉ a) ∧
    (∀ idx len, (main inp w fuel).exit = .panicked (.indexOutOfRange idx len) →
      idx = 1 ∧ len = 1 ∧ (main inp w fuel).sys.requests = [] ∧
      ∃ before bad after, inp.args = before ++ bad :: after ∧
        (∀ a ∈ before, (61 : Byte) ∈ a) ∧ (61 : Byte) ∉ bad ∧
        parseArgs inp.args = .error (before.length, .indexOutOfRange 1 1)) ∧
    ((∀ a ∈ inp.args, (61 : Byte) ∈ a) → ∃ m, parseArgs inp.args = .ok m) := by
  have hbad : (∃ a ∈ inp.args, (61 : Byte) ∉ a) →
      ∃ before bad after, inp.args = before ++ bad :: after ∧
        (∀ a ∈ before, (61 : Byte) ∈ a) ∧ (61 : Byte) ∉ bad ∧
        parseArgs inp.args = .error (before.length, .indexOutOfRange 1 1) ∧
        main inp w fuel = ⟨⟨[], []⟩, .panicked (.indexOutOfRange 1 1)⟩ := by
    intro h
    obtain ⟨before, bad, after, e, h1, h2⟩ := exists_first_bad inp.args h
    have hp : parseArgs inp.args = .error (before.length, .indexOutOfRange 1 1) := by
      have := parseArgsFrom_error before bad after [] 0 h1 h2
      simpa [parseArgs, e] using this
    exact ⟨before, bad, after, e, h1, h2, hp, main_of_parse_error inp w fuel _ hp⟩
  have hgood : (∀ a ∈ inp.args, (61 : Byte) ∈ a) →
      ∃ m, parseArgs inp.args = .ok m := by
    intro h
    cases hp : parseArgs inp.args with
    | ok m => exact ⟨m, rfl⟩
    | error p =>
      exfalso
      by_cases hex : ∃ a ∈ inp.args, (61 : Byte) ∉ a
      · obtain ⟨a, ha, hna⟩ := hex
        exact hna (h a ha)
      · have hall : ∀ a ∈ inp.args, (61 : Byte) ∈ a := h
        clear hex
        have key : ∀ (l : List GoString) (m : GoMap GoString) (i : Nat),
            (∀ a ∈ l, (61 : Byte) ∈ a) → ∃ m2, parseArgsFrom m i l = .ok m2 := by
          intro l
          induction l with
          | nil => intro m i _; exact ⟨m, rfl⟩
          | cons a rest ih =>
            intro m i hl
            have ha : (61 : Byte) ∈ a := hl a (by simp)
            obtain ⟨m2, hm2⟩ := ih (m.set (argKey a) (argValue a)) (i + 1)
              (fun b hb => hl b (by simp [hb]))
            exact ⟨m2, by simp [parseArgsFrom, SplitN_two_of_mem a ha, hm2]⟩
        obtain ⟨m2, hm2⟩ := key inp.args [] 0 hall
        simp [parseArgs, hm2] at hp
  have hcrash : ∀ idx len, (main inp w fuel).exit = .panicked (.indexOutOfRange idx len) →
      ∃ a ∈ inp.args, (61 : Byte) ∉ a := by
    intro idx len hm
    by_contra hno
    have hall : ∀ a ∈ inp.args, (61 : Byte) ∈ a := by
      intro a ha
      by_contra hna
      exact hno ⟨a, ha, hna⟩
    obtain ⟨m, hm2⟩ := hgood hall
    exact main_of_parse_ok inp w fuel m hm2 idx len hm
  refine ⟨⟨?_, ?_⟩, ?_, hgood⟩
  · rintro ⟨idx, len, hm⟩
    exact hcrash idx len hm
  · intro h
    obtain ⟨_, _, _, _, _, _, _, hm⟩ := hbad h
    exact ⟨1, 1, by rw [hm]⟩
  · intro idx len hm
    obtain ⟨before, bad, after, e, h1, h2, hp, hmain⟩ := hbad (hcrash idx len hm)
    rw [hmain] at hm
    simp only [Exit.panicked.injEq, Panic.indexOutOfRange.injEq] at hm
    exact ⟨hm.1.symm, hm.2.symm, by rw [hmain], before, bad, after, e, h1, h2, hp⟩

/-- C1: when the poll loop of a run is left with the final build information
`b`, the run ends on the fatal path (`log.Fatalf`, exit status 1) exactly when
`b.Result` is not the string `SUCCESS`, and `main` returns (exit status 0)
exactly when it is. -/
theorem main_fatal_iff_result_not_success (inp : Input) (w : World) (fuel : Nat)
    (sys : Sys) (b : BuildInfo) (hpoll : runToPoll inp w fuel = .ok (sys, b)) :
    ((∃ msg, (main inp w fuel).exit = .fatal msg) ↔ b.Result ≠ ascii "SUCCESS") ∧
    ((main inp w fuel).exit = .returned ↔ b.Result = ascii "SUCCESS") ∧
    (b.Result ≠ ascii "SUCCESS" →
      (main inp w fuel).exit = .fatal (ascii "Unexpected build result " ++ b.Result) ∧
      (main inp w fuel).exit.code = some 1) ∧
    (b.Result = ascii "SUCCESS" → (main inp w fuel).exit.code = some 0) := by
  have hm : main inp w fuel = reportResult sys b := by
    simp [main, hpoll]
  rw [hm]
  by_cases hr : b.Result = ascii "SUCCESS"
  · simp [reportResult, hr, Exit.code]
  · simp [reportResult, hr, Exit.code]

theorem main_fatal_iff_result_not_success_witness :
    ((∃ msg, (main sampleInput (sampleWorld (ascii "FAILURE") (ascii "log")) 1).exit
        = .fatal msg) ↔ ascii "FAILURE" ≠ ascii "SUCCESS") ∧
    ((main sampleInput (sampleWorld (ascii "FAILURE") (ascii "log")) 1).exit = .returned ↔
      ascii "FAILURE" = ascii "SUCCESS") ∧
    (ascii "FAILURE" ≠ ascii "SUCCESS" →
      (main sampleInput (sampleWorld (ascii "FAILURE") (ascii "log")) 1).exit
        = .fatal (ascii "Unexpected build result " ++ ascii "FAILURE") ∧
      (main sampleInput (sampleWorld (ascii "FAILURE") (ascii "log")) 1).exit.code = some 1) ∧
    (ascii "FAILURE" = ascii "SUCCESS" →
      (main sampleInput (sampleWorld (ascii "FAILURE") (ascii "log")) 1).exit.code = some 0) :=
  main_fatal_iff_result_not_success sampleInput (sampleWorld (ascii "FAILURE") (ascii "log")) 1
    _ ⟨false, ascii "FAILURE"⟩ rfl

/-- C2: on responses without request error, the poll loop is left right after
iteration `k` exactly when `k` is the first iteration in which more-data is
false and the build is not building; then `k + 1` iterations suffice and no
request follows those of iteration `k`; when no iteration passes the test the
loop is never left. -/
theorem pollLoop_exits_iff_first_terminal (w : World) (host : GoString)
    (cred : Credentials) (job : GoString) (bn : Int) (s : Script) (sys : Sys) (k : Nat)
    (hok : ∀ i, IterOk w s i) :
    ((∃ fuel b, (pollLoop w host cred job bn fuel 0 0 sys).status = .broke b ∧
        (pollLoop w host cred job bn fuel 0 0 sys).iter = k) ↔
      (s.terminal k = true ∧ ∀ j, j < k → s.terminal j = false)) ∧
    ((s.terminal k = true ∧ ∀ j, j < k → s.terminal j = false) →
      ∀ fuel, k < fuel →
        pollLoop w host cred job bn fuel 0 0 sys =
          ⟨sysAfter host cred job bn s sys (k + 1), k, .broke (s.info k)⟩ ∧
        (pollLoop w host cred job bn fuel 0 0 sys).sys.requests.length =
          sys.requests.length + 2 * (k + 1)) ∧
    ((∀ j, s.terminal j = false) →
      ∀ fuel, (pollLoop w host cred job bn fuel 0 0 sys).status = .running) := by
  refine ⟨⟨?_, ?_⟩, ?_, ?_⟩
  · rintro ⟨fuel, b, hst, hit⟩
    rcases pollLoop_spec w host cred job bn s sys fuel 0 (fun j _ _ => hok j) with
      ⟨_, he⟩ | ⟨k2, _, _, ht2, hf2, he⟩
    · have he2 : pollLoop w host cred job bn fuel 0 0 sys =
          ⟨sysAfter host cred job bn s sys (0 + fuel), 0 + fuel, .running⟩ := he
      rw [he2] at hst
      cases hst
    · have he2 : pollLoop w host cred job bn fuel 0 0 sys =
          ⟨sysAfter host cred job bn s sys (k2 + 1), k2, .broke (s.info k2)⟩ := he
      rw [he2] at hit
      simp only at hit
      subst hit
      exact ⟨ht2, fun j hj => hf2 j (Nat.zero_le j) hj⟩
  · rintro ⟨ht, hfirst⟩
    have := pollLoop_first_terminal w host cred job bn s sys (k + 1) k (fun i _ => hok i)
      (by omega) ht hfirst
    exact ⟨k + 1, s.info k, by rw [this], by rw [this]⟩
  · rintro ⟨ht, hfirst⟩ fuel hk
    have := pollLoop_first_terminal w host cred job bn s sys fuel k (fun i _ => hok i)
      hk ht hfirst
    refine ⟨this, ?_⟩
    rw [this]
    exact sysAfter_requests_length host cred job bn s sys (k + 1)
  · intro hnone fuel
    rw [pollLoop_no_terminal w host cred job bn s sys fuel (fun i _ => hok i)
      (fun j _ => hnone j)]

theorem pollLoop_exits_iff_first_terminal_witness :
    ((∃ fuel b, (pollLoop shrinkingWorld (ascii "http://ci") sampleCredentials (ascii "job") 12
          fuel 0 0 ⟨[], []⟩).status = .broke b ∧
        (pollLoop shrinkingWorld (ascii "http://ci") sampleCredentials (ascii "job") 12
          fuel 0 0 ⟨[], []⟩).iter = 2) ↔
      (shrinkingScript.terminal 2 = true ∧ ∀ j, j < 2 → shrinkingScript.terminal j = false)) ∧
    ((shrinkingScript.terminal 2 = true ∧ ∀ j, j < 2 → shrinkingScript.terminal j = false) →
      ∀ fuel, 2 < fuel →
        pollLoop shrinkingWorld (ascii "http://ci") sampleCredentials (ascii "job") 12
            fuel 0 0 ⟨[], []⟩ =
          ⟨sysAfter (ascii "http://ci") sampleCredentials (ascii "job") 12 shrinkingScript
            ⟨[], []⟩ (2 + 1), 2, .broke (shrinkingScript.info 2)⟩ ∧
        (pollLoop shrinkingWorld (ascii "http://ci") sampleCredentials (ascii "job") 12
            fuel 0 0 ⟨[], []⟩).sys.requests.length =
          (⟨[], []⟩ : Sys).requests.length + 2 * (2 + 1)) ∧
    ((∀ j, shrinkingScript.terminal j = false) →
      ∀ fuel, (pollLoop shrinkingWorld (ascii "http://ci") sampleCredentials (ascii "job") 12
        fuel 0 0 ⟨[], []⟩).status = .running) :=
  pollLoop_exits_iff_first_terminal shrinkingWorld (ascii "http://ci") sampleCredentials
    (ascii "job") 12 shrinkingScript ⟨[], []⟩ 2 shrinkingWorld_ok

/-- C3: on responses without request error, the log request of the first
iteration asks for `start=0`, and the log request of every later iteration
asks for the text size that `X-Text-Size` reported in the iteration before;
each iteration sends two requests, the second being the log request. -/
theorem log_start_is_previous_text_size (w : World) (host : GoString) (cred : Credentials)
    (job : GoString) (bn : Int) (s : Script) (sys : Sys) (fuel : Nat) (e : PollEnd)
    (hok : ∀ i, i < fuel → IterOk w s i)
    (he : pollLoop w host cred job bn fuel 0 0 sys = e) :
    e.sys.requests.length = sys.requests.length + 2 * e.done ∧
    (0 < e.done → e.sys.requests[sys.requests.length + 1]? =
      some (authorize ⟨ascii "GET", logURL host job bn 0, []⟩ cred)) ∧
    (∀ j, j + 1 < e.done → e.sys.requests[sys.requests.length + 2 * (j + 1) + 1]? =
      some (authorize ⟨ascii "GET", logURL host job bn (s.textSize j), []⟩ cred)) := by
  subst he
  obtain ⟨hsys, _⟩ := pollLoop_sys w host cred job bn s sys fuel hok
  rw [hsys]
  refine ⟨sysAfter_requests_length host cred job bn s sys _, ?_, ?_⟩
  · intro h
    exact sysAfter_requests_log host cred job bn s sys _ 0 h
  · intro j hj
    exact sysAfter_requests_log host cred job bn s sys _ (j + 1) hj

theorem log_start_is_previous_text_size_witness :
    (pollLoop growingWorld (ascii "http://ci") sampleCredentials (ascii "job") 12 5 0 0
        ⟨[], []⟩).sys.requests.length =
      (⟨[], []⟩ : Sys).requests.length + 2 *
        (pollLoop growingWorld (ascii "http://ci") sampleCredentials (ascii "job") 12 5 0 0
          ⟨[], []⟩).done ∧
    (0 < (pollLoop growingWorld (ascii "http://ci") sampleCredentials (ascii "job") 12 5 0 0
        ⟨[], []⟩).done →
      (pollLoop growingWorld (ascii "http://ci") sampleCredentials (ascii "job") 12 5 0 0
        ⟨[], []⟩).sys.requests[(⟨[], []⟩ : Sys).requests.length + 1]? =
      some (authorize ⟨ascii "GET", logURL (ascii "http://ci") (ascii "job") 12 0, []⟩
        sampleCredentials)) ∧
    (∀ j, j + 1 < (pollLoop growingWorld (ascii "http://ci") sampleCredentials (ascii "job") 12
        5 0 0 ⟨[], []⟩).done →
      (pollLoop growingWorld (ascii "http://ci") sampleCredentials (ascii "job") 12 5 0 0
        ⟨[], []⟩).sys.requests[(⟨[], []⟩ : Sys).requests.length + 2 * (j + 1) + 1]? =
      some (authorize
        ⟨ascii "GET", logURL (ascii "http://ci") (ascii "job") 12 (growingScript.textSize j), []⟩
        sampleCredentials)) :=
  log_start_is_previous_text_size growingWorld (ascii "http://ci") sampleCredentials
    (ascii "job") 12 growingScript ⟨[], []⟩ 5 _ (fun i _ => growingWorld_ok i) rfl

/-- C4, as stated, fails: against a server that reports the text sizes 5 and 3
the log requests ask for the offsets 0, 5, 3, so the offsets decrease, and the
third offset is the last reported size 3, not the sum 5 + 3. -/
theorem log_offsets_not_cumulative :
    (∀ i, IterOk shrinkingWorld shrinkingScript i) ∧
    ((main sampleInput shrinkingWorld 5).sys.requests.map Request.url).drop 3 =
      [buildInfoURL (ascii "http://ci") (ascii "job") 12,
       logURL (ascii "http://ci") (ascii "job") 12 0,
       buildInfoURL (ascii "http://ci") (ascii "job") 12,
       logURL (ascii "http://ci") (ascii "job") 12 5,
       buildInfoURL (ascii "http://ci") (ascii "job") 12,
       logURL (ascii "http://ci") (ascii "job") 12 3] ∧
    shrinkingScript.textSize 0 = 5 ∧ shrinkingScript.textSize 1 = 3 ∧
    logURL (ascii "http://ci") (ascii "job") 12 3 ≠
      logURL (ascii "http://ci") (ascii "job") 12
        (shrinkingScript.textSize 0 + shrinkingScript.textSize 1) ∧
    (3 : Int) < 5 :=
  ⟨shrinkingWorld_ok, by decide, rfl, rfl, by decide, by decide⟩

/-- C4, amended: for every sequence of responses without request error, the
offset of the log request of iteration `j` is 0 for the first iteration and
the text size reported in the iteration before for every later one, whatever
the sizes are; and if the reported sizes are non-negative and non-decreasing,
the offsets are non-decreasing across iterations. -/
theorem log_offsets_nondecreasing_of_sizes (w : World) (host : GoString)
    (cred : Credentials) (job : GoString) (bn : Int) (s : Script) (sys : Sys) (fuel : Nat)
    (e : PollEnd) (hok : ∀ i, i < fuel → IterOk w s i)
    (he : pollLoop w host cred job bn fuel 0 0 sys = e) :
    (∀ j, j < e.done → e.sys.requests[sys.requests.length + 2 * j + 1]? =
      some (authorize ⟨ascii "GET", logURL host job bn (s.startAt j), []⟩ cred)) ∧
    (0 < e.done → e.sys.requests[sys.requests.length + 1]? =
      some (authorize ⟨ascii "GET", logURL host job bn 0, []⟩ cred)) ∧
    (∀ j, j + 1 < e.done → e.sys.requests[sys.requests.length + 2 * (j + 1) + 1]? =
      some (authorize ⟨ascii "GET", logURL host job bn (s.textSize j), []⟩ cred)) ∧
    s.startAt 0 = 0 ∧ (∀ j, s.startAt (j + 1) = s.textSize j) ∧
    (0 ≤ s.textSize 0 → (∀ j, j + 2 < e.done → s.textSize j ≤ s.textSize (j + 1)) →
      ∀ j, j + 1 < e.done → s.startAt j ≤ s.startAt (j + 1)) := by
  subst he
  obtain ⟨hsys, _⟩ := pollLoop_sys w host cred job bn s sys fuel hok
  refine ⟨?_, ?_, ?_, rfl, fun _ => rfl, ?_⟩
  · intro j hj
    rw [hsys]
    exact sysAfter_requests_log host cred job bn s sys _ j hj
  · intro h
    rw [hsys]
    exact sysAfter_requests_log host cred job bn s sys _ 0 h
  · intro j hj
    rw [hsys]
    exact sysAfter_requests_log host cred job bn s sys _ (j + 1) hj
  · intro h0 hmono j hj
    cases j with
    | zero => exact h0
    | succ j => exact hmono j (by omega)

theorem log_offsets_nondecreasing_of_sizes_witness :
    (∀ j, j < (pollLoop shrinkingWorld (ascii "http://ci") sampleCredentials (ascii "job") 12
        5 0 0 ⟨[], []⟩).done →
      (pollLoop shrinkingWorld (ascii "http://ci") sampleCredentials (ascii "job") 12 5 0 0
        ⟨[], []⟩).sys.requests[(⟨[], []⟩ : Sys).requests.length + 2 * j + 1]? =
      some (authorize
        ⟨ascii "GET", logURL (ascii "http://ci") (ascii "job") 12 (shrinkingScript.startAt j),
          []⟩ sampleCredentials)) ∧
    (0 < (pollLoop shrinkingWorld (ascii "http://ci") sampleCredentials (ascii "job") 12
        5 0 0 ⟨[], []⟩).done →
      (pollLoop shrinkingWorld (ascii "http://ci") sampleCredentials (ascii "job") 12 5 0 0
        ⟨[], []⟩).sys.requests[(⟨[], []⟩ : Sys).requests.length + 1]? =
      some (authorize ⟨ascii "GET", logURL (ascii "http://ci") (ascii "job") 12 0, []⟩
        sampleCredentials)) ∧
    (∀ j, j + 1 < (pollLoop shrinkingWorld (ascii "http://ci") sampleCredentials (ascii "job")
        12 5 0 0 ⟨[], []⟩).done →
      (pollLoop shrinkingWorld (ascii "http://ci") sampleCredentials (ascii "job") 12 5 0 0
        ⟨[], []⟩).sys.requests[(⟨[], []⟩ : Sys).requests.length + 2 * (j + 1) + 1]? =
      some (authorize
        ⟨ascii "GET", logURL (ascii "http://ci") (ascii "job") 12 (shrinkingScript.textSize j),
          []⟩ sampleCredentials)) ∧
    shrinkingScript.startAt 0 = 0 ∧
    (∀ j, shrinkingScript.startAt (j + 1) = shrinkingScript.textSize j) ∧
    (0 ≤ shrinkingScript.textSize 0 →
      (∀ j, j + 2 < (pollLoop shrinkingWorld (ascii "http://ci") sampleCredentials
          (ascii "job") 12 5 0 0 ⟨[], []⟩).done →
        shrinkingScript.textSize j ≤ shrinkingScript.textSize (j + 1)) →
      ∀ j, j + 1 < (pollLoop shrinkingWorld (ascii "http://ci") sampleCredentials (ascii "job")
          12 5 0 0 ⟨[], []⟩).done →
        shrinkingScript.startAt j ≤ shrinkingScript.startAt (j + 1)) :=
  log_offsets_nondecreasing_of_sizes shrinkingWorld (ascii "http://ci") sampleCredentials
    (ascii "job") 12 shrinkingScript ⟨[], []⟩ 5 _ (fun i _ => shrinkingWorld_ok i) rfl

/-- C5, as stated, fails: the server returns the chunks `ab`, two spaces and
`cd`; the run writes `ab`, a line feed, `cd` and a line feed, which is not the
concatenation of the chunks: a line feed follows every chunk written and the
chunk of spaces is not written. -/
theorem stdout_not_concatenation :
    (∀ i, IterOk growingWorld growingScript i) ∧
    (main sampleInput growingWorld 5).exit = .returned ∧
    (main sampleInput growingWorld 5).sys.stdout = ascii "ab\ncd\n" ∧
    growingScript.chunk 0 ++ growingScript.chunk 1 ++ growingScript.chunk 2 = ascii "ab  cd" ∧
    (main sampleInput growingWorld 5).sys.stdout ≠
      growingScript.chunk 0 ++ growingScript.chunk 1 ++ growingScript.chunk 2 :=
  ⟨growingWorld_ok, by decide, by decide, by decide, by decide⟩

/-- C5, amended: on responses without request error, standard output receives,
in the order of the iterations and once each, every chunk that is not white
space only, followed by a line feed; a chunk that is empty or white space only
is not written. -/
theorem stdout_is_printed_chunks (w : World) (host : GoString) (cred : Credentials)
    (job : GoString) (bn : Int) (s : Script) (sys : Sys) (fuel : Nat) (e : PollEnd)
    (hok : ∀ i, i < fuel → IterOk w s i)
    (he : pollLoop w host cred job bn fuel 0 0 sys = e) :
    e.sys.stdout = sys.stdout ++ ((List.range e.done).map (fun j => printed (s.chunk j))).flatten ∧
    (∀ c, TrimSpaceIsEmpty c = true → printed c = []) ∧
    (∀ c, TrimSpaceIsEmpty c = false → printed c = c ++ [10]) := by
  subst he
  obtain ⟨hsys, _⟩ := pollLoop_sys w host cred job bn s sys fuel hok
  refine ⟨?_, ?_, ?_⟩
  · rw [hsys]
    exact sysAfter_stdout host cred job bn s sys _
  · intro c hc; simp [printed, hc]
  · intro c hc; simp [printed, hc]

theorem stdout_is_printed_chunks_witness :
    (pollLoop growingWorld (ascii "http://ci") sampleCredentials (ascii "job") 12 5 0 0
        ⟨[], []⟩).sys.stdout =
      (⟨[], []⟩ : Sys).stdout ++
        ((List.range (pollLoop growingWorld (ascii "http://ci") sampleCredentials (ascii "job")
          12 5 0 0 ⟨[], []⟩).done).map (fun j => printed (growingScript.chunk j))).flatten ∧
    (∀ c, TrimSpaceIsEmpty c = true → printed c = []) ∧
    (∀ c, TrimSpaceIsEmpty c = false → printed c = c ++ [10]) :=
  stdout_is_printed_chunks growingWorld (ascii "http://ci") sampleCredentials (ascii "job") 12
    growingScript ⟨[], []⟩ 5 _ (fun i _ => growingWorld_ok i) rfl

/-- C6, as stated, fails: when the crumb issuer answers with an empty token,
or with an empty header-field name, no later request carries the crumb header;
when the field name is `authorization`, the basic authentication replaces the
crumb. -/
theorem crumb_header_not_always_carried :
    (main sampleInput (crumbWorld [] (ascii "Jenkins-Crumb")) 1).sys.requests.length = 5 ∧
    (∀ req ∈ (main sampleInput (crumbWorld [] (ascii "Jenkins-Crumb")) 1).sys.requests.drop 1,
      ¬ Carries req (ascii "Jenkins-Crumb") []) ∧
    (main sampleInput (crumbWorld (ascii "abc") []) 1).sys.requests.length = 5 ∧
    (∀ req ∈ (main sampleInput (crumbWorld (ascii "abc") []) 1).sys.requests.drop 1,
      ¬ Carries req [] (ascii "abc")) ∧
    (main sampleInput (crumbWorld (ascii "abc") (ascii "authorization")) 1).sys.requests.length
      = 5 ∧
    (∀ req ∈
      (main sampleInput (crumbWorld (ascii "abc") (ascii "authorization")) 1).sys.requests.drop 1,
      ¬ Carries req (ascii "authorization") (ascii "abc")) := by
  decide

/-- C6, amended: when the crumb issuer answers with a token `t` and a
header-field name `f` that are both non-empty, and `f` is not the
`Authorization` header, every request of the run after the crumb request
(build trigger, queue item, build information, log) carries the header `f`,
in canonical form, with the single value `t`. -/
theorem requests_carry_crumb (inp : Input) (w : World) (fuel : Nat) (h : Header) (c : Crumb)
    (hcrumb : w.crumbIssuer = .response ⟨h, .ok c⟩)
    (ht : c.Crumb ≠ []) (hf : c.CrumbRequestField ≠ [])
    (hauth : CanonicalMIMEHeaderKey c.CrumbRequestField ≠ ascii "Authorization") :
    (∀ req ∈ (main inp w fuel).sys.requests.drop 1,
      Carries req c.CrumbRequestField c.Crumb) ∧
    ((∃ m, parseArgs inp.args = .ok m) →
      (main inp w fuel).sys.requests.take 1 =
        [authorize ⟨ascii "GET", inp.JENKINS_HOST_URL ++ ascii "/crumbIssuer/api/json", []⟩
          ⟨inp.JENKINS_USERNAME, inp.JENKINS_API_TOKEN, ⟨[], []⟩⟩]) := by
  have hP : ∀ r : Request, r.header = [] →
      Carries (authorize r ⟨inp.JENKINS_USERNAME, inp.JENKINS_API_TOKEN, c⟩)
        c.CrumbRequestField c.Crumb :=
    fun r hr => authorize_carries r ⟨inp.JENKINS_USERNAME, inp.JENKINS_API_TOKEN, c⟩ hr ht hf
      hauth
  rcases main_extends_crumb (fun req => Carries req c.CrumbRequestField c.Crumb) inp w fuel h c
      hcrumb hP with ⟨⟨p, hp⟩, hreq⟩ | ⟨_, more, e, hm⟩
  · refine ⟨by rw [hreq]; simp, ?_⟩
    rintro ⟨m, hm⟩
    rw [hp] at hm
    cases hm
  · refine ⟨?_, fun _ => by rw [e]; rfl⟩
    intro req hreq
    rw [e] at hreq
    exact hm req (by simpa using hreq)

theorem requests_carry_crumb_witness :
    (∀ req ∈ (main sampleInput (sampleWorld (ascii "SUCCESS") (ascii "log")) 1).sys.requests.drop 1,
      Carries req (ascii "Jenkins-Crumb") (ascii "abc")) ∧
    ((∃ m, parseArgs sampleInput.args = .ok m) →
      (main sampleInput (sampleWorld (ascii "SUCCESS") (ascii "log")) 1).sys.requests.take 1 =
        [authorize
          ⟨ascii "GET", sampleInput.JENKINS_HOST_URL ++ ascii "/crumbIssuer/api/json", []⟩
          ⟨sampleInput.JENKINS_USERNAME, sampleInput.JENKINS_API_TOKEN, ⟨[], []⟩⟩]) :=
  requests_carry_crumb sampleInput (sampleWorld (ascii "SUCCESS") (ascii "log")) 1 []
    ⟨ascii "abc", ascii "Jenkins-Crumb"⟩ rfl (by decide) (by decide) (by decide)

/-- C10, as stated, fails: the header `X-Text-Size: 9223372036854775808` is a
base-10 integer and `X-More-Data` is absent, yet `GetBuildLog` returns the
range error of `strconv.Atoi` with text size 0. -/
theorem GetBuildLog_text_size_out_of_range :
    IsBase10 (Header.Get [(ascii "X-Text-Size", [ascii "9223372036854775808"])]
      (ascii "X-Text-Size")) 9223372036854775808 ∧
    GoMap.get [(ascii "X-Text-Size", [ascii "9223372036854775808"])] (ascii "X-More-Data")
      = none ∧
    (GetBuildLog ⟨[], []⟩ (ascii "http://ci") sampleCredentials (ascii "job") 12 0
      (.response ⟨[(ascii "X-Text-Size", [ascii "9223372036854775808"])], .ok (ascii "log")⟩)).2
      = ⟨false, 0, some (.outOfRange (ascii "Atoi") (ascii "9223372036854775808"))⟩ := by
  refine ⟨⟨[9, 2, 2, 3, 3, 7, 2, 0, 3, 6, 8, 5, 4, 7, 7, 5, 8, 0, 8], by decide, by decide,
    Or.inl ⟨by decide, by norm_num [Nat.ofDigits]⟩⟩, by decide, by decide⟩

/-- C10, amended: for every log response whose `X-Text-Size` header is a
base-10 integer `n` within the range of a 64-bit `int` and whose `X-More-Data`
header is absent, `GetBuildLog` returns `moreData = false`, `textSize = n` and
no error. -/
theorem GetBuildLog_absent_more_data (sys : Sys) (host : GoString) (cred : Credentials)
    (job : GoString) (bn start : Int) (hdr : Header) (body : GoString) (n : Int)
    (habsent : GoMap.get hdr (ascii "X-More-Data") = none)
    (hsize : IsBase10 (Header.Get hdr (ascii "X-Text-Size")) n)
    (hlo : -9223372036854775808 ≤ n) (hhi : n < 9223372036854775808) :
    (GetBuildLog sys host cred job bn start (.response ⟨hdr, .ok body⟩)).2 =
      ⟨false, n, none⟩ := by
  have hget : Header.Get hdr (ascii "X-More-Data") = [] := by
    simp [Header.Get, canonical_more_data, habsent]
  have hatoi := Atoi_of_IsBase10 _ n hsize hlo hhi
  rw [GetBuildLog_ok sys host cred job bn start hdr body false n hatoi (Or.inl ⟨hget, rfl⟩)]

theorem GetBuildLog_absent_more_data_witness :
    (GetBuildLog ⟨[], []⟩ (ascii "http://ci") sampleCredentials (ascii "job") 12 0
      (.response ⟨[(ascii "X-Text-Size", [ascii "42"])], .ok (ascii "log")⟩)).2 =
      ⟨false, 42, none⟩ :=
  GetBuildLog_absent_more_data ⟨[], []⟩ (ascii "http://ci") sampleCredentials (ascii "job") 12 0
    [(ascii "X-Text-Size", [ascii "42"])] (ascii "log") 42 (by decide)
    ⟨[4, 2], by decide, by decide, Or.inl ⟨by decide, by norm_num [Nat.ofDigits]⟩⟩
    (by decide) (by decide)

/-- C7: for a parameter map with unique keys, the query string `TriggerBuild`
builds holds, between the `&` separators, exactly one pair per entry: for
every entry the one piece whose key part is the escaped key is
`key=value` with both parts escaped, each part unescapes to the original, and
`url.ParseQuery` of the string yields, without error, the map that gives every
key of the original map the list of its one value and has no other key. -/
theorem buildParams_roundtrip (args : GoMap GoString) (hkeys : (GoMap.keys args).Nodup) :
    (∀ kv ∈ args,
      (Split (buildParams args) 38).filter
          (fun p => decide ((Cut p 61).1 = QueryEscape kv.1)) =
        [QueryEscape kv.1 ++ 61 :: QueryEscape kv.2] ∧
      QueryUnescape (QueryEscape kv.1) = .ok kv.1 ∧
      QueryUnescape (QueryEscape kv.2) = .ok kv.2) ∧
    ((Split (buildParams args) 38).filter (fun p => decide (p ≠ []))).length = args.length ∧
    (∃ m, ParseQuery (buildParams args) = (m, none) ∧ (GoMap.keys m).Nodup ∧
      m.length = args.length ∧
      ∀ k, GoMap.get m k = (GoMap.get args k).map (fun v => [v])) := by
  have hq := buildParams_eq args hkeys
  have hperm := sortedKeys_perm args
  have hnd := sortedKeys_nodup args hkeys
  have hlen : (sortedKeys args).length = args.length := by
    rw [hperm.length_eq]; simp [GoMap.keys]
  have hplain : ∀ p ∈ (sortedKeys args).map
      (fun k => queryPair k ((GoMap.get args k).getD [])), (38 : Byte) ∉ p := by
    intro p hp
    obtain ⟨k, _, rfl⟩ := List.mem_map.1 hp
    exact (queryPair_plain k _).1
  refine ⟨?_, ?_, ?_⟩
  · intro kv hkv
    obtain ⟨k, v⟩ := kv
    have hk : k ∈ sortedKeys args :=
      (mem_sortedKeys args k).2 (List.mem_map.2 ⟨(k, v), hkv, rfl⟩)
    have hne : (sortedKeys args).map
        (fun k => queryPair k ((GoMap.get args k).getD [])) ≠ [] := by
      intro e
      rw [List.map_eq_nil_iff] at e
      rw [e] at hk
      simp at hk
    refine ⟨?_, QueryUnescape_QueryEscape k, QueryUnescape_QueryEscape v⟩
    rw [hq, Split_joinAmp _ hne hplain, List.filter_map]
    have hfun : ((fun p => decide ((Cut p 61).1 = QueryEscape k)) ∘
        (fun k => queryPair k ((GoMap.get args k).getD []))) = fun x => decide (x = k) := by
      funext x
      simp only [Function.comp, Cut_queryPair]
      exact decide_eq_decide.2 ⟨QueryEscape_injective x k, fun e => by rw [e]⟩
    rw [hfun, filter_eq_of_nodup _ k hnd hk]
    simp [GoMap.get_of_mem args k v hkeys hkv, queryPair]
  · rw [hq]
    by_cases he : sortedKeys args = []
    · rw [he] at hlen
      rw [he, ← hlen]
      simp [joinAmp, Split]
    · have hne : (sortedKeys args).map
          (fun k => queryPair k ((GoMap.get args k).getD [])) ≠ [] := by
        simpa [List.map_eq_nil_iff] using he
      rw [Split_joinAmp _ hne hplain]
      have hall : ∀ p ∈ (sortedKeys args).map
          (fun k => queryPair k ((GoMap.get args k).getD [])), decide (p ≠ []) = true := by
        intro p hp
        obtain ⟨k, _, rfl⟩ := List.mem_map.1 hp
        simpa using (queryPair_plain k _).2.2
      rw [List.filter_eq_self.2 hall, List.length_map, hlen]
  · have hq2 : buildParams args =
        joinAmp (((sortedKeys args).map (fun k => (k, (GoMap.get args k).getD []))).map
          (fun kv => queryPair kv.1 kv.2)) := by
      rw [hq, List.map_map]
      rfl
    have hparse := parseQuery_joinAmp
      ((sortedKeys args).map (fun k => (k, (GoMap.get args k).getD []))) [] _ (le_refl _)
    have hkeys2 : GoMap.keys ((sortedKeys args).map (fun k => (k, (GoMap.get args k).getD [])))
        = sortedKeys args := by
      simp [GoMap.keys, Function.comp_def]
    have hfold := foldl_Add ((sortedKeys args).map (fun k => (k, (GoMap.get args k).getD [])))
      [] (by rw [hkeys2]; simpa [GoMap.keys] using hnd)
    simp only [List.nil_append, List.map_map] at hfold
    rw [hfold] at hparse
    refine ⟨_, by rw [ParseQuery, hq2]; exact hparse, ?_, ?_, ?_⟩
    · simpa [GoMap.keys, Function.comp_def] using hnd
    · simp [hlen]
    · intro k
      have hg := GoMap.get_map_keys (fun x => [(GoMap.get args x).getD []]) (sortedKeys args) k
      have hcomp : ((fun kv : GoString × GoString => (kv.1, [kv.2])) ∘
          fun k => (k, (GoMap.get args k).getD [])) =
          fun x => (x, [(GoMap.get args x).getD []]) := rfl
      rw [hcomp, hg]
      by_cases hk : k ∈ GoMap.keys args
      · obtain ⟨v, hv⟩ := GoMap.get_of_mem_keys args k hk
        simp [(mem_sortedKeys args k).2 hk, hv]
      · have hk2 : k ∉ sortedKeys args := fun h => hk ((mem_sortedKeys args k).1 h)
        simp [hk2, GoMap.get_eq_none args k hk]

theorem buildParams_roundtrip_witness :
    (∀ kv ∈ [(ascii "b c", ascii "x&y=z"), ([], []), (ascii "a", ascii "100%")],
      (Split (buildParams [(ascii "b c", ascii "x&y=z"), ([], []), (ascii "a", ascii "100%")])
          38).filter (fun p => decide ((Cut p 61).1 = QueryEscape kv.1)) =
        [QueryEscape kv.1 ++ 61 :: QueryEscape kv.2] ∧
      QueryUnescape (QueryEscape kv.1) = .ok kv.1 ∧
      QueryUnescape (QueryEscape kv.2) = .ok kv.2) ∧
    ((Split (buildParams [(ascii "b c", ascii "x&y=z"), ([], []), (ascii "a", ascii "100%")])
        38).filter (fun p => decide (p ≠ []))).length =
      [(ascii "b c", ascii "x&y=z"), (([] : GoString), ([] : GoString)),
        (ascii "a", ascii "100%")].length ∧
    (∃ m, ParseQuery
        (buildParams [(ascii "b c", ascii "x&y=z"), ([], []), (ascii "a", ascii "100%")])
        = (m, none) ∧ (GoMap.keys m).Nodup ∧
      m.length = [(ascii "b c", ascii "x&y=z"), (([] : GoString), ([] : GoString)),
        (ascii "a", ascii "100%")].length ∧
      ∀ k, GoMap.get m k =
        (GoMap.get [(ascii "b c", ascii "x&y=z"), ([], []), (ascii "a", ascii "100%")] k).map
          (fun v => [v])) :=
  buildParams_roundtrip [(ascii "b c", ascii "x&y=z"), ([], []), (ascii "a", ascii "100%")]
    (by decide)

end Jc
